import Mathlib

/-!
# SmartSplitAI backend: balance engine, split derivation, duty rotation, rooms, treasure

A shallow embedding of `controllers/expenseController.js` (with the schema of
`models/Expense.js`), of `controllers/dutyController.js` and
`agenda/jobs/incrementDutyIndex.js` (with `models/Duty.js`), and of the handlers of
`controllers/roomController.js` and `controllers/treasureController.js` that change a
room (with `models/Room.js`), and the properties proved about them.

Modelling conventions.

* A JavaScript number is an exact rational (`ℚ`): sums, products and quotients are
  exact, so binary64 rounding error is outside the model.  Concrete inputs used
  in the closed theorems below are chosen so that every intermediate value is
  the same in binary64 arithmetic (or differs from it by far less than the gap
  that the theorem exhibits).
* A Mongo `ObjectId` rendered with `toString()` is a `String`; the empty string
  stands for an absent (falsy) request field.
* The document store is passed in: `Room.findById` is the `Option Room` it
  returned, `Expense.find` is the ledger it returned, `Expense.create` is the
  schema validation of `models/Expense.js` followed by returning the document.
  Where a property is about what a handler writes, the store is a `Database` and the
  handler returns its response together with the store it leaves.
-/

namespace SmartSplit

/-! ## Numbers -/

/-- The value of `parseFloat(x.toFixed(2))`: `toFixed` takes the magnitude, picks the
integer `n` with `n / 100` closest to it (the larger `n` on a tie) and restores the
sign.  For magnitudes of `1e21` and more `toFixed` prints the number itself; a
binary64 number of that size is an integer, so rounding is the identity there too. -/
def toFixed2 (x : ℚ) : ℚ :=
  if x < 0 then -((⌊(-x) * 100 + 1 / 2⌋ : ℤ) : ℚ) / 100
  else ((⌊x * 100 + 1 / 2⌋ : ℤ) : ℚ) / 100

/-! ## Data model -/

/-- A populated user reference (`populate("...", "name")`). -/
structure User where
  _id : String
  name : String
deriving DecidableEq

/-- An element of `room.members`. -/
structure RoomMember where
  user : User
  role : String
deriving DecidableEq

/-- A room document (the fields the expense controller reads). -/
structure Room where
  members : List RoomMember
deriving DecidableEq

/-- An element of `expense.splits` (`splitSchema`). -/
structure Split where
  user : String
  amount : ℚ
  percentage : Option ℚ
  shares : Option ℚ
deriving DecidableEq

/-- An expense document (`expenseSchema`). -/
structure Expense where
  roomId : String
  description : String
  totalAmount : ℚ
  paidBy : String
  splitType : String
  splits : List Split
deriving DecidableEq

/-- A value of the `balances` object, also an element of `rawBalances`. -/
structure Balance where
  _id : String
  name : String
  amount : ℚ
deriving DecidableEq

/-- An element of `simplifiedDebts`: `{from, to, amount}`. -/
structure Settlement where
  from_ : String
  to_ : String
  amount : ℚ
deriving DecidableEq

/-- The response body of `getRoomBalances`. -/
structure BalancesResponse where
  rawBalances : List Balance
  simplifiedDebts : List Settlement
deriving DecidableEq

/-- A failed request: the status set on the response and the thrown message. -/
structure HttpError where
  status : Nat
  message : String
deriving DecidableEq

/-! ## getRoomBalances -/

/-- The assignment `balances[e._id] = e` on the `balances` object.  `Object.values`
lists string keys in insertion order, and assigning to an existing key keeps its
position. -/
def setBalance : List Balance → Balance → List Balance
  | [], e => [e]
  | b :: bs, e => if b._id = e._id then e :: bs else b :: setBalance bs e

/-- The `room.members.forEach` that initialises every member's balance to `0`. -/
def initBalances (members : List RoomMember) : List Balance :=
  members.foldl (fun acc m => setBalance acc ⟨m.user._id, m.user.name, 0⟩) []

/-- The guarded update `if (balances[id]) { balances[id].amount += delta }`; an id that
is not a key leaves the object unchanged (the `else` branch only logs). -/
def addToBalance : List Balance → String → ℚ → List Balance
  | [], _, _ => []
  | b :: bs, id, delta =>
    if b._id = id then { b with amount := b.amount + delta } :: bs
    else b :: addToBalance bs id delta

/-- The body of `expenses.forEach`: credit the payer, then debit every split user. -/
def processExpense (balances : List Balance) (expense : Expense) : List Balance :=
  expense.splits.foldl (fun acc split => addToBalance acc split.user (-split.amount))
    (addToBalance balances expense.paidBy expense.totalAmount)

/-- The array `balanceArray = Object.values(balances)` after all expenses are processed. -/
def balanceArray (members : List RoomMember) (expenses : List Expense) : List Balance :=
  expenses.foldl processExpense (initBalances members)

/-- The array `creditors`: positive balances, largest first (`sort` is stable). -/
def creditorsOf (bs : List Balance) : List Balance :=
  (bs.filter (fun b => 0 < b.amount)).insertionSort (fun a b => b.amount ≤ a.amount)

/-- The array `debtors`: negative balances, most negative first (`sort` is stable). -/
def debtorsOf (bs : List Balance) : List Balance :=
  (bs.filter (fun b => b.amount < 0)).insertionSort (fun a b => a.amount ≤ b.amount)

/-- One iteration of the `while` loop: the current debtor and creditor as they are when
the iteration starts, and the `amountToSettle` it computes. -/
structure Step where
  debtor : Balance
  creditor : Balance
  amountToSettle : ℚ
deriving DecidableEq

/-- The `simplifiedDebts.push` of an iteration, guarded by `amountToSettle > 0.01`. -/
def Step.recorded (s : Step) : Option Settlement :=
  if 1 / 100 < s.amountToSettle then
    some ⟨s.debtor.name, s.creditor.name, toFixed2 s.amountToSettle⟩
  else none

/-- The value `Math.min(Math.abs(debtor.amount), creditor.amount)`. -/
def amountToSettle (debtor creditor : Balance) : ℚ :=
  min |debtor.amount| creditor.amount

/-- The rest of `debtors` after an iteration: `debtor.amount += amountToSettle`, and `i++`
when `Math.abs(debtor.amount) < 0.01`. -/
def debtorsAfter (debtor creditor : Balance) (ds : List Balance) : List Balance :=
  if |debtor.amount + amountToSettle debtor creditor| < 1 / 100 then ds
  else { debtor with amount := debtor.amount + amountToSettle debtor creditor } :: ds

/-- The rest of `creditors` after an iteration: `creditor.amount -= amountToSettle`, and
`j++` when `creditor.amount < 0.01`. -/
def creditorsAfter (debtor creditor : Balance) (cs : List Balance) : List Balance :=
  if creditor.amount - amountToSettle debtor creditor < 1 / 100 then cs
  else { creditor with amount := creditor.amount - amountToSettle debtor creditor } :: cs

/-- The `while (i < debtors.length && j < creditors.length)` loop.  The two lists are
`debtors[i..]` and `creditors[j..]`; their heads carry the amounts mutated so far.
The first argument bounds the number of iterations. -/
def settleLoop : Nat → List Balance → List Balance → List Step
  | 0, _, _ => []
  | _, [], _ => []
  | _, _, [] => []
  | fuel + 1, debtor :: ds, creditor :: cs =>
    ⟨debtor, creditor, amountToSettle debtor creditor⟩ ::
      settleLoop fuel (debtorsAfter debtor creditor ds) (creditorsAfter debtor creditor cs)

/-- The iterations the loop performs on `balanceArray`.  Every iteration on a negative
debtor and a positive creditor advances a pointer (`settleLoop_fuel` below), so
`debtors.length + creditors.length` iterations exhaust the loop. -/
def settleSteps (bs : List Balance) : List Step :=
  settleLoop ((debtorsOf bs).length + (creditorsOf bs).length) (debtorsOf bs) (creditorsOf bs)

/-- The balance computation of `getRoomBalances` (everything after the ledger is read). -/
def computeBalances (members : List RoomMember) (expenses : List Expense) :
    BalancesResponse :=
  let bs := balanceArray members expenses
  { rawBalances := bs.map (fun b => { b with amount := toFixed2 b.amount })
    simplifiedDebts := (settleSteps bs).filterMap Step.recorded }

/-- The handler `getRoomBalances`: `room` is the result of `Room.findById`, `requester` is
`req.user._id`, `expenses` is the result of `Expense.find({ roomId })` with `paidBy` and
`splits.user` populated, every reference resolving to a user document (the general case
is `getRoomBalancesPopulated`). -/
def getRoomBalances (room : Option Room) (requester : String) (expenses : List Expense) :
    Except HttpError BalancesResponse :=
  match room with
  | none => .error ⟨404, "Room not found."⟩
  | some room =>
    if room.members.any (fun member => member.user._id = requester) then
      .ok (computeBalances room.members expenses)
    else .error ⟨403, "You are not authorized to view balances for this room."⟩

/-! ## Specification-side quantities -/

/-- The ids of the room's members (`member.user._id.toString()`). -/
def memberIds (members : List RoomMember) : List String :=
  members.map (fun m => m.user._id)

/-- The sum of `totalAmount` over the expenses whose `paidBy` is `id`. -/
def paidTotal (expenses : List Expense) (id : String) : ℚ :=
  ((expenses.filter (fun e => e.paidBy = id)).map (fun e => e.totalAmount)).sum

/-- The sum of `split.amount` over the split entries of one expense whose user is `id`. -/
def owedIn (expense : Expense) (id : String) : ℚ :=
  ((expense.splits.filter (fun s => s.user = id)).map (fun s => s.amount)).sum

/-- The sum of `split.amount` over all split entries of the ledger whose user is `id`. -/
def owedTotal (expenses : List Expense) (id : String) : ℚ :=
  (expenses.map (fun e => owedIn e id)).sum

/-- The sum of the amounts of a list of balances. -/
def sumAmounts (bs : List Balance) : ℚ :=
  (bs.map (fun b => b.amount)).sum

/-- The keys of the `balances` object. -/
def keys (bs : List Balance) : List String :=
  bs.map (fun b => b._id)

/-- The amount stored under key `id` (`0` when `id` is not a key). -/
def amountAt (bs : List Balance) (id : String) : ℚ :=
  ((bs.filter (fun b => b._id = id)).map (fun b => b.amount)).sum

/-- Every balance of the list is negative. -/
def AllNeg (ds : List Balance) : Prop :=
  ∀ d ∈ ds, d.amount < 0

/-- Every balance of the list is positive. -/
def AllPos (cs : List Balance) : Prop :=
  ∀ c ∈ cs, 0 < c.amount

/-! ## addExpense -/

/-- An element of `req.body.splits`.  `amount`, `percentage` and `shares` hold what
`parseFloat` returns for the field; `none` is `NaN` (field absent or not a number). -/
structure SplitInput where
  user : String
  amount : Option ℚ
  percentage : Option ℚ
  shares : Option ℚ
deriving DecidableEq

/-- The body of a `POST /api/expenses/add` request.  An absent string field is `""`, an
absent `totalAmount` is `0` (both falsy), an absent `splits` is `none`. -/
structure AddExpenseBody where
  roomId : String
  description : String
  totalAmount : ℚ
  paidBy : String
  splitType : String
  splits : Option (List SplitInput)
deriving DecidableEq

/-- The characters `String.prototype.trim` strips (WhiteSpace and LineTerminator). -/
def isWhiteSpace (c : Char) : Bool :=
  c.toNat = 0x09 || c.toNat = 0x0A || c.toNat = 0x0B || c.toNat = 0x0C || c.toNat = 0x0D ||
  c.toNat = 0x20 || c.toNat = 0xA0 || c.toNat = 0x1680 ||
  (0x2000 ≤ c.toNat && c.toNat ≤ 0x200A) ||
  c.toNat = 0x2028 || c.toNat = 0x2029 || c.toNat = 0x202F || c.toNat = 0x205F ||
  c.toNat = 0x3000 || c.toNat = 0xFEFF

/-- The schema setter `trim: true`. -/
def trim (s : String) : String :=
  String.mk ((s.toList.dropWhile isWhiteSpace).reverse.dropWhile isWhiteSpace).reverse

/-- The `isNaN(amount) || amount <= 0` test of the `unequal` and `shares` branches. -/
def notPositive (v : Option ℚ) : Bool :=
  match v with
  | none => true
  | some x => decide (x ≤ 0)

/-- The `isNaN(percentage) || percentage < 0 || percentage > 100` test. -/
def notPercentage (v : Option ℚ) : Bool :=
  match v with
  | none => true
  | some x => decide (x < 0) || decide (100 < x)

/-- The `switch (splitType)` of `addExpense`: the value of `processedSplits` when the
switch falls through to `Expense.create`, or the error it throws. -/
def processedSplits (splitType : String) (totalAmount : ℚ) (splits : List SplitInput) :
    Except HttpError (List Split) :=
  if splitType = "equal" then
    if splits.length = 0 then
      .error ⟨400, "For equal split, at least one member must be specified in splits."⟩
    else
      let amountPerPerson := totalAmount / splits.length
      .ok (splits.map (fun s => ⟨s.user, toFixed2 amountPerPerson, none, none⟩))
  else if splitType = "unequal" then
    if splits.any (fun s => notPositive s.amount) then
      .error ⟨400, "For unequal split, each member must have a valid positive amount."⟩
    else
      let totalSplitAmount := (splits.map (fun s => s.amount.getD 0)).sum
      if 1 / 100 < |totalSplitAmount - totalAmount| then
        .error ⟨400, "Sum of unequal amounts does not match the total amount."⟩
      else .ok (splits.map (fun s => ⟨s.user, toFixed2 (s.amount.getD 0), none, none⟩))
  else if splitType = "percentage" then
    if splits.any (fun s => notPercentage s.percentage) then
      .error ⟨400, "For percentage split, each member must have a valid percentage (0-100)."⟩
    else
      let totalPercentage := (splits.map (fun s => s.percentage.getD 0)).sum
      if 1 / 100 < |totalPercentage - 100| then
        .error ⟨400, "Sum of percentages must be 100%."⟩
      else
        .ok (splits.map (fun s =>
          ⟨s.user, toFixed2 (totalAmount * s.percentage.getD 0 / 100), s.percentage, none⟩))
  else if splitType = "shares" then
    if splits.any (fun s => notPositive s.shares) then
      .error ⟨400,
        "For shares split, each member must have a valid positive number of shares."⟩
    else
      let totalShares := (splits.map (fun s => s.shares.getD 0)).sum
      if totalShares = 0 then .error ⟨400, "Total shares cannot be zero."⟩
      else
        let amountPerShare := totalAmount / totalShares
        .ok (splits.map (fun s =>
          ⟨s.user, toFixed2 (s.shares.getD 0 * amountPerShare), none, s.shares⟩))
  else .error ⟨400, "Invalid split type."⟩

/-- The call `Expense.create(doc)`: the validators of `expenseSchema` that can still fail
for a document built by `addExpense` (`description` is required after trimming,
`totalAmount` has `min: 0.01`), then the stored document.  A validation error carries
no status, so the response is a 500; its message is abridged here. -/
def Expense.create (doc : Expense) : Except HttpError Expense :=
  if trim doc.description = "" then .error ⟨500, "Expense validation failed: description"⟩
  else if doc.totalAmount < 1 / 100 then
    .error ⟨500, "Expense validation failed: totalAmount"⟩
  else .ok { doc with description := trim doc.description }

/-- The handler `addExpense`: `room` is the result of `Room.findById(roomId)`, `requester`
is `req.user._id`; the result is the stored expense or the error response. -/
def addExpense (room : Option Room) (requester : String) (body : AddExpenseBody) :
    Except HttpError Expense :=
  match body.splits with
  | none => .error ⟨400, "Please provide all required expense details."⟩
  | some splits =>
    if body.roomId = "" ∨ body.description = "" ∨ body.totalAmount = 0 ∨
        body.paidBy = "" ∨ body.splitType = "" then
      .error ⟨400, "Please provide all required expense details."⟩
    else
      match room with
      | none => .error ⟨404, "Room not found."⟩
      | some room =>
        if ¬ requester ∈ memberIds room.members then
          .error ⟨403, "You are not a member of this room."⟩
        else if ¬ body.paidBy ∈ memberIds room.members then
          .error ⟨400, "The \"Paid By\" user is not a member of this room."⟩
        else
          match splits.find? (fun s => ¬ s.user ∈ memberIds room.members) with
          | some s =>
            .error ⟨400, "User " ++ s.user ++ " in splits is not a member of this room."⟩
          | none =>
            match processedSplits body.splitType body.totalAmount splits with
            | .error e => .error e
            | .ok processed =>
              Expense.create ⟨body.roomId, body.description, body.totalAmount, body.paidBy,
                body.splitType, processed⟩

/-! ## Concrete rooms, ledgers and requests -/

/-- A member with the given id and name. -/
def member (id name : String) : RoomMember := ⟨⟨id, name⟩, "user"⟩

/-- A stored split with only `user` and `amount`. -/
def split (user : String) (amount : ℚ) : Split := ⟨user, amount, none, none⟩

/-- A stored expense of room `r` with the given payer, total and splits. -/
def expense (paidBy : String) (totalAmount : ℚ) (splits : List Split) : Expense :=
  ⟨"r", "d", totalAmount, paidBy, "unequal", splits⟩

/-- A room of two members. -/
def roomAB : Room := ⟨[member "a" "Ann", member "b" "Bob"]⟩

/-- A split request entry naming only the user. -/
def splitFor (user : String) : SplitInput := ⟨user, none, none, none⟩

/-- A room whose only member is Ann. -/
def roomA : Room := ⟨[member "a" "Ann"]⟩

/-- A room of two members who are both called Sam. -/
def roomSam : Room := ⟨[member "a" "Sam", member "b" "Sam"]⟩

/-- The first Sam paid 10 for the second Sam. -/
def ledgerSam : List Expense := [expense "a" 10 [split "b" 10]]

/-- The request passes every check of `addExpense` that precedes the `switch`: the
required fields are present, the room exists, the requester and the payer are members
of the room, and so is every split user. -/
def PassesChecks (room : Room) (requester : String) (body : AddExpenseBody)
    (splits : List SplitInput) : Prop :=
  body.splits = some splits ∧ body.roomId ≠ "" ∧ body.description ≠ "" ∧
    body.totalAmount ≠ 0 ∧ body.paidBy ≠ "" ∧ body.splitType ≠ "" ∧
    requester ∈ memberIds room.members ∧ body.paidBy ∈ memberIds room.members ∧
    ∀ s ∈ splits, s.user ∈ memberIds room.members

/-- A room of three members. -/
def roomThree : Room := ⟨[member "a" "Ann", member "b" "Bob", member "c" "Cy"]⟩

/-- An element of `duty.duties` (`dutyItemSchema`); `assignedTo` is `none` for `null`.
The generated `_id` of the item is not modelled. -/
structure DutyItem where
  description : String
  assignedTo : Option String
deriving DecidableEq

/-- A duty configuration document (`dutySchema`).  The cursor is only ever written as
`0` or as the `nextIndex` of a tick, so it is a natural number. -/
structure Duty where
  roomId : String
  duties : List DutyItem
  memberOrder : List String
  currentStartingMemberIndex : Nat
  skippedMembersForCurrentCycle : List String
deriving DecidableEq

/-- The value `nextIndex` of the job: `0` when the cursor has reached
`maxIndex = members.length - 1`, the cursor plus one otherwise. -/
def nextIndex (duty : Duty) : Nat :=
  if duty.memberOrder.length - 1 ≤ duty.currentStartingMemberIndex then 0
  else duty.currentStartingMemberIndex + 1

/-- The value `startIdx = nextIndex % members.length`. -/
def startIdx (duty : Duty) : Nat :=
  nextIndex duty % duty.memberOrder.length

/-- The ring position `(startIdx + i) % members.length` that slot `i` is given. -/
def ringPosition (duty : Duty) (i : Nat) : Nat :=
  (startIdx duty + i) % duty.memberOrder.length

/-- The array `updatedDocs`: every slot keeps its fields and is assigned the member at
its ring position.  `members` is the populated `memberOrder`; every id of the order has a
user document, and storing the populated member stores its id. -/
def updatedDocs (duty : Duty) : List DutyItem :=
  duty.duties.mapIdx
    (fun i doc => { doc with assignedTo := duty.memberOrder[ringPosition duty i]? })

/-- The `$set` that the job sends for one configuration: the new cursor and the new
slots, or `none` when the callback returns early without an update. -/
def rotation (duty : Duty) : Option (Nat × List DutyItem) :=
  if duty.memberOrder.length = 0 ∨ duty.duties.length = 0 then none
  else some (nextIndex duty, updatedDocs duty)

/-- One tick of the job `increment duty currentIndex` on one configuration: the stored
document after the tick. -/
def incrementDutyIndex (duty : Duty) : Duty :=
  match rotation duty with
  | none => duty
  | some update =>
    { duty with currentStartingMemberIndex := update.1, duties := update.2 }

/-! ## createOrUpdateDuties -/

/-- An element of `req.body.duties`; an absent `description` is `""`. -/
structure DutyInput where
  description : String
deriving DecidableEq

/-- The body of a `POST /api/duties/:id/configure` request; a field that is absent or is
not an array is `none`. -/
structure ConfigureBody where
  duties : Option (List DutyInput)
  memberOrder : Option (List String)
deriving DecidableEq

/-- The expression `value || null` on an array element: `undefined` (index out of range)
and the empty string are falsy. -/
def orNull (value : Option String) : Option String :=
  match value with
  | none => none
  | some id => if id = "" then none else some id

/-- The array `dutyDocs`: slot `i` takes the description of the supplied duty and is
assigned `memberOrder[i] || null`. -/
def dutyDocs (duties : List DutyInput) (memberOrder : List String) : List DutyItem :=
  duties.mapIdx
    (fun memberIndex duty => ⟨duty.description, orNull memberOrder[memberIndex]?⟩)

/-- The validation and setters of `dutySchema` that run when a configuration built by
`createOrUpdateDuties` is saved: every slot's `description` is trimmed and required.  A
validation error carries no status, so the response is a 500; its message is abridged. -/
def Duty.save (doc : Duty) : Except HttpError Duty :=
  if doc.duties.any (fun d => trim d.description = "") then
    .error ⟨500, "Duty validation failed: duties.description"⟩
  else
    .ok { doc with
      duties := doc.duties.map (fun d => { d with description := trim d.description }) }

/-- The handler `createOrUpdateDuties`: `room` is the result of `Room.findById(roomId)`,
`existing` the result of `Duty.findOne({ roomId })`; the result is the stored
configuration or the error response. -/
def createOrUpdateDuties (room : Option Room) (existing : Option Duty) (roomId : String)
    (body : ConfigureBody) : Except HttpError Duty :=
  match body.duties with
  | none => .error ⟨400, "Please provide at least one duty."⟩
  | some duties =>
    if duties.length = 0 then .error ⟨400, "Please provide at least one duty."⟩
    else
      match body.memberOrder with
      | none => .error ⟨400, "Please provide an order of members for duties."⟩
      | some memberOrder =>
        if memberOrder.length = 0 then
          .error ⟨400, "Please provide an order of members for duties."⟩
        else if memberOrder.length < duties.length then
          .error ⟨400,
            "Number of duties cannot be greater than the number of members in the order."⟩
        else
          match room with
          | none => .error ⟨404, "Room not found."⟩
          | some room =>
            if (memberOrder.filter (fun id => ¬ id ∈ memberIds room.members)).length > 0 then
              .error ⟨400,
                "One or more member IDs in the order are not valid room members."⟩
            else
              match existing with
              | some dutyConfig =>
                Duty.save { dutyConfig with
                  duties := dutyDocs duties memberOrder
                  memberOrder := memberOrder
                  currentStartingMemberIndex := 0
                  skippedMembersForCurrentCycle := [] }
              | none =>
                Duty.save ⟨roomId, dutyDocs duties memberOrder, memberOrder, 0, []⟩

/-! ## getRoomBalances on the populated ledger -/

/-- The result of populating a user reference against the users collection: `none` is the
`null` that `populate` leaves when no user document has the id. -/
def populated (users : List User) (id : String) : Option User :=
  users.find? (fun u => u._id = id)

/-- The response to the `TypeError` thrown by `x._id` when `x` is `null`. -/
def nullReference : HttpError :=
  ⟨500, "Cannot read properties of null (reading '_id')"⟩

/-- The inner `expense.splits.forEach` on populated splits: `split.user._id` throws on a
split whose user did not populate. -/
def debitSplits (users : List User) :
    List Balance → List Split → Except HttpError (List Balance)
  | balances, [] => .ok balances
  | balances, split :: rest =>
    match populated users split.user with
    | none => .error nullReference
    | some user => debitSplits users (addToBalance balances user._id (-split.amount)) rest

/-- The `expenses.forEach` on the populated ledger: `expense.paidBy._id` throws on an
expense whose payer did not populate. -/
def processLedger (users : List User) :
    List Balance → List Expense → Except HttpError (List Balance)
  | balances, [] => .ok balances
  | balances, expense :: rest =>
    match populated users expense.paidBy with
    | none => .error nullReference
    | some payer =>
      match debitSplits users (addToBalance balances payer._id expense.totalAmount)
          expense.splits with
      | .error e => .error e
      | .ok balances1 => processLedger users balances1 rest

/-- The rest of `getRoomBalances` once `balanceArray` is known. -/
def respond (bs : List Balance) : BalancesResponse :=
  { rawBalances := bs.map (fun b => { b with amount := toFixed2 b.amount })
    simplifiedDebts := (settleSteps bs).filterMap Step.recorded }

/-- The handler `getRoomBalances` with the populate step made explicit: `users` is the
users collection, `expenses` the stored ledger of the room.  `getRoomBalances` above is
this handler when every user referenced by the ledger has a document. -/
def getRoomBalancesPopulated (users : List User) (room : Option Room) (requester : String)
    (expenses : List Expense) : Except HttpError BalancesResponse :=
  match room with
  | none => .error ⟨404, "Room not found."⟩
  | some room =>
    if room.members.any (fun member => member.user._id = requester) then
      match processLedger users (initBalances room.members) expenses with
      | .error e => .error e
      | .ok bs => .ok (respond bs)
    else .error ⟨403, "You are not authorized to view balances for this room."⟩

/-! ## Concrete requests, configurations and collections -/

/-- Ann asks to split 100 equally between herself and Zed, who is not in the room. -/
def bodyStranger : AddExpenseBody :=
  ⟨"r", "d", 100, "a", "equal", some [splitFor "a", splitFor "z"]⟩

/-- Ann asks to split -5 equally between herself and Bob. -/
def bodyNegative : AddExpenseBody :=
  ⟨"r", "d", -5, "a", "equal", some [splitFor "a", splitFor "b"]⟩

/-- Two duties rotating over Ann, Bob and Cy, freshly configured. -/
def dutyABC : Duty :=
  ⟨"r", [⟨"d1", some "a"⟩, ⟨"d2", some "b"⟩], ["a", "b", "c"], 0, []⟩

/-- A configuration whose member order is empty. -/
def dutyNoMembers : Duty :=
  ⟨"r", [⟨"d1", none⟩], [], 0, ["a"]⟩

/-- A configuration that has no duties. -/
def dutyNoDuties : Duty :=
  ⟨"r", [], ["a", "b"], 1, []⟩

/-- The configuration `duty` with its cursor at `s` modulo the length of the member order
and slot `i` assigned the member at position `(s + i)` modulo that length. -/
def rotated (duty : Duty) (s : Nat) : Duty :=
  { duty with
    currentStartingMemberIndex := s % duty.memberOrder.length
    duties := duty.duties.mapIdx (fun i doc =>
      { doc with assignedTo := duty.memberOrder[(s + i) % duty.memberOrder.length]? }) }

/-- The validations of `createOrUpdateDuties` and of the schema all pass: there is at
least one duty and one member in the order, no more duties than members, every id of
the order is a member of the room, and no description is blank. -/
def ValidConfiguration (room : Room) (duties : List DutyInput) (memberOrder : List String) :
    Prop :=
  duties ≠ [] ∧ memberOrder ≠ [] ∧ duties.length ≤ memberOrder.length ∧
    (∀ id ∈ memberOrder, id ∈ memberIds room.members) ∧
    ∀ d ∈ duties, trim d.description ≠ ""

/-- An admin asks for one duty without a description, for Ann. -/
def bodyNoDescription : ConfigureBody :=
  ⟨some [⟨""⟩], some ["a"]⟩

/-- An admin asks for one duty " sweep " (with surrounding blanks), for Ann. -/
def bodySweep : ConfigureBody :=
  ⟨some [⟨" sweep "⟩], some ["a"]⟩

/-- An admin asks for duties d1 and d2 rotating over Ann, Bob and Cy. -/
def bodyABC : ConfigureBody :=
  ⟨some [⟨"d1"⟩, ⟨"d2"⟩], some ["a", "b", "c"]⟩

/-- A users collection that holds only Ann. -/
def usersAnn : List User := [⟨"a", "Ann"⟩]

/-- A users collection that holds Ann and Bob. -/
def usersAnnBob : List User := [⟨"a", "Ann"⟩, ⟨"b", "Bob"⟩]

/-- The user with id "b" paid 10 for Ann. -/
def ledgerPaidByB : List Expense := [expense "b" 10 [split "a" 10]]

/-- Every user referenced by the ledger has a document in the users collection. -/
def Resolved (users : List User) (expenses : List Expense) : Prop :=
  ∀ e ∈ expenses, (∃ u, populated users e.paidBy = some u) ∧
    ∀ s ∈ e.splits, ∃ u, populated users s.user = some u

/-! ## The document store -/

/-- An element of `room.treasureTransactions` (`treasureTransactionSchema`); the `date`
of the transaction is not modelled. -/
structure TreasureTransaction where
  description : String
  amount : ℚ
  type : String
deriving DecidableEq

/-- A stored room document (`roomSchema`): the members of `Room` together with the
document id and the treasure fields; `name` and `roomId` (the short join code) are not
modelled. -/
structure RoomDoc extends Room where
  _id : String
  treasure : ℚ
  treasureTransactions : List TreasureTransaction
deriving DecidableEq

/-- The three collections the handlers below read and write.  `_id` is unique among
`rooms`, and `roomId` is unique among `duties` (`unique: true` in `dutySchema`). -/
structure Database where
  rooms : List RoomDoc
  expenses : List Expense
  duties : List Duty
deriving DecidableEq

/-- The query `Room.findById(roomId)`, with `members.user` populated where the handler
asks for it. -/
def Room.findById (db : Database) (roomId : String) : Option Room :=
  (db.rooms.find? (fun room => room._id = roomId)).map (fun room => room.toRoom)

/-- The query `Duty.findOne({ roomId })`. -/
def Duty.findOne (db : Database) (roomId : String) : Option Duty :=
  db.duties.find? (fun duty => duty.roomId = roomId)

/-- The call `Expense.create(doc)` on the store: when the document passes the schema it
is inserted into the expenses collection, otherwise the store is left as it is. -/
def Expense.createIn (db : Database) (doc : Expense) : Except HttpError Expense × Database :=
  match Expense.create doc with
  | .error e => (.error e, db)
  | .ok stored => (.ok stored, { db with expenses := db.expenses ++ [stored] })

/-- The call `Duty.create(doc)` on the store: when the document passes the schema it is
inserted into the duties collection, otherwise the store is left as it is. -/
def Duty.createIn (db : Database) (doc : Duty) : Except HttpError Duty × Database :=
  match Duty.save doc with
  | .error e => (.error e, db)
  | .ok stored => (.ok stored, { db with duties := db.duties ++ [stored] })

/-- The call `dutyConfig.save()` on the store: when the document passes the schema it
replaces the stored configuration of its room (it is inserted when the room has none),
otherwise the store is left as it is. -/
def Duty.saveIn (db : Database) (doc : Duty) : Except HttpError Duty × Database :=
  match Duty.save doc with
  | .error e => (.error e, db)
  | .ok stored =>
    if db.duties.any (fun duty => duty.roomId = stored.roomId) then
      let replaced := db.duties.map (fun duty => if duty.roomId = stored.roomId then stored else duty)
      (.ok stored, { db with duties := replaced })
    else (.ok stored, { db with duties := db.duties ++ [stored] })

/-- The handler `addExpense` on the store, statement by statement: the response and the
store when the handler returns or throws. -/
def addExpenseOn (db : Database) (requester : String) (body : AddExpenseBody) :
    Except HttpError Expense × Database :=
  match body.splits with
  | none => (.error ⟨400, "Please provide all required expense details."⟩, db)
  | some splits =>
    if body.roomId = "" ∨ body.description = "" ∨ body.totalAmount = 0 ∨
        body.paidBy = "" ∨ body.splitType = "" then
      (.error ⟨400, "Please provide all required expense details."⟩, db)
    else
      match Room.findById db body.roomId with
      | none => (.error ⟨404, "Room not found."⟩, db)
      | some room =>
        if ¬ requester ∈ memberIds room.members then
          (.error ⟨403, "You are not a member of this room."⟩, db)
        else if ¬ body.paidBy ∈ memberIds room.members then
          (.error ⟨400, "The \"Paid By\" user is not a member of this room."⟩, db)
        else
          match splits.find? (fun s => ¬ s.user ∈ memberIds room.members) with
          | some s =>
            (.error ⟨400, "User " ++ s.user ++ " in splits is not a member of this room."⟩,
              db)
          | none =>
            match processedSplits body.splitType body.totalAmount splits with
            | .error e => (.error e, db)
            | .ok processed =>
              Expense.createIn db ⟨body.roomId, body.description, body.totalAmount,
                body.paidBy, body.splitType, processed⟩

/-- The handler `createOrUpdateDuties` on the store, statement by statement: the response
and the store when the handler returns or throws.  A new configuration is written by
`Duty.create` and then saved once more. -/
def createOrUpdateDutiesOn (db : Database) (roomId : String) (body : ConfigureBody) :
    Except HttpError Duty × Database :=
  match body.duties with
  | none => (.error ⟨400, "Please provide at least one duty."⟩, db)
  | some duties =>
    if duties.length = 0 then (.error ⟨400, "Please provide at least one duty."⟩, db)
    else
      match body.memberOrder with
      | none => (.error ⟨400, "Please provide an order of members for duties."⟩, db)
      | some memberOrder =>
        if memberOrder.length = 0 then
          (.error ⟨400, "Please provide an order of members for duties."⟩, db)
        else if memberOrder.length < duties.length then
          (.error ⟨400,
            "Number of duties cannot be greater than the number of members in the order."⟩,
            db)
        else
          match Room.findById db roomId with
          | none => (.error ⟨404, "Room not found."⟩, db)
          | some room =>
            if (memberOrder.filter (fun id => ¬ id ∈ memberIds room.members)).length > 0 then
              (.error ⟨400,
                "One or more member IDs in the order are not valid room members."⟩, db)
            else
              match Duty.findOne db roomId with
              | some dutyConfig =>
                Duty.saveIn db { dutyConfig with
                  duties := dutyDocs duties memberOrder
                  memberOrder := memberOrder
                  currentStartingMemberIndex := 0
                  skippedMembersForCurrentCycle := [] }
              | none =>
                match Duty.createIn db ⟨roomId, dutyDocs duties memberOrder, memberOrder, 0, []⟩
                with
                | (.error e, db1) => (.error e, db1)
                | (.ok dutyConfig, db1) => Duty.saveIn db1 dutyConfig

/-- The handler `deleteRoom` on the store: the response and the store afterwards.  The
only write is `room.deleteOne()`, which removes the room document. -/
def deleteRoom (db : Database) (requester : String) (roomId : String) :
    Except HttpError String × Database :=
  match db.rooms.find? (fun room => room._id = roomId) with
  | none => (.error ⟨404, "Room not found."⟩, db)
  | some room =>
    if ¬ room.members.any (fun member => member.user._id = requester ∧ member.role = "admin")
    then (.error ⟨403, "Not authorized. Only room admins can delete a room."⟩, db)
    else if 1 < room.members.length then
      (.error ⟨400, "Room cannot be deleted. All other members must leave the room first."⟩,
        db)
    else if 0 < (db.expenses.filter (fun e => e.roomId = roomId)).length then
      (.error ⟨400,
        "Room cannot be deleted. All expenses must be deleted or settled first."⟩, db)
    else
      (.ok "Room deleted successfully.",
        { db with rooms := db.rooms.filter (fun stored => stored._id ≠ room._id) })

/-! ## The room controller -/

/-- The inner `expense.splits.forEach` of `getRoomBalancesInternal`: a split whose user
did not populate is skipped (`if (!split.user) return;`). -/
def debitSplitsInternal (users : List User) (balances : List Balance) (splits : List Split) :
    List Balance :=
  splits.foldl (fun acc split =>
    match populated users split.user with
    | none => acc
    | some user => addToBalance acc user._id (-split.amount)) balances

/-- The `expenses.forEach` of `getRoomBalancesInternal`: an expense whose payer did not
populate is skipped as a whole (`if (!expense.paidBy) return;`). -/
def processLedgerInternal (users : List User) (balances : List Balance)
    (expenses : List Expense) : List Balance :=
  expenses.foldl (fun acc expense =>
    match populated users expense.paidBy with
    | none => acc
    | some payer =>
      debitSplitsInternal users (addToBalance acc payer._id expense.totalAmount)
        expense.splits) balances

/-- The helper `getRoomBalancesInternal` (the function that `asyncHandler` wraps): `room`
is the result of `Room.findById(roomId)`, `expenses` the stored ledger of the room; the
result is the `rawBalances` it returns or the message of the error it throws. -/
def getRoomBalancesInternal (users : List User) (room : Option Room)
    (requestingUserId : String) (expenses : List Expense) : Except String (List Balance) :=
  match room with
  | none => .error "Room not found."
  | some room =>
    if room.members.any (fun member => member.user._id = requestingUserId) then
      .ok ((processLedgerInternal users (initBalances room.members) expenses).map
        (fun b => { b with amount := toFixed2 b.amount }))
    else .error "Requesting user is not a member of this room."

/-- The handler `leaveRoom`: `room` is the result of `Room.findById`, `requester` is
`req.user._id`; the result is the room as saved or the error response.  An error inside
the `try` block is rethrown with the lead-in of the `catch` block and keeps the status set
before it.  When the wrapped helper throws, `asyncHandler` hands the error to the
helper's last argument (the `Expense` model) and the helper's caller receives a value
without `rawBalances`; the helper cannot throw here, the room and the membership having
been checked before. -/
def leaveRoom (users : List User) (room : Option Room) (requester : String)
    (expenses : List Expense) : Except HttpError Room :=
  match room with
  | none => .error ⟨404, "Room not found."⟩
  | some room =>
    if ¬ room.members.any (fun member => member.user._id = requester) then
      .error ⟨400, "You are not a member of this room."⟩
    else if room.members.any (fun m => m.user._id = requester ∧ m.role = "admin") ∧
        (room.members.filter (fun m => m.role = "admin")).length = 1 then
      .error ⟨400, "You cannot leave as you are the last admin. " ++
        "Appoint another admin first or delete the room."⟩
    else
      match getRoomBalancesInternal users (some room) requester expenses with
      | .error _ =>
        .error ⟨500, "Failed to check outstanding balances: " ++
          "Cannot read properties of undefined (reading 'find')"⟩
      | .ok rawBalances =>
        if (rawBalances.find? (fun b => b._id = requester)).any
            (fun userBalance => 1 / 100 < |userBalance.amount|) then
          .error ⟨400, "Failed to check outstanding balances: " ++
            "You have outstanding debts or credits and cannot leave the room. " ++
            "Please settle all expenses first."⟩
        else .ok ⟨room.members.filter (fun member => member.user._id ≠ requester)⟩

/-- The handler `removeMemberFromRoom`: `requester` is `req.user._id`, `userId` the id in
the request body; the result is the room as saved or the error response (see `leaveRoom`
for the balance check). -/
def removeMemberFromRoom (users : List User) (room : Option Room) (requester : String)
    (userId : String) (expenses : List Expense) : Except HttpError Room :=
  match room with
  | none => .error ⟨404, "Room not found."⟩
  | some room =>
    if ¬ room.members.any (fun member => member.user._id = requester ∧ member.role = "admin")
    then .error ⟨403, "Not authorized. Only room admins can remove members."⟩
    else
      match room.members.find? (fun m => m.user._id = userId) with
      | none => .error ⟨404, "Member not found in this room."⟩
      | some memberToRemove =>
        if memberToRemove.user._id = requester ∧
            (room.members.filter (fun m => m.role = "admin")).length = 1 then
          .error ⟨400, "You cannot remove yourself as you are the last admin. " ++
            "Appoint another admin first or delete the room."⟩
        else
          match getRoomBalancesInternal users (some room) requester expenses with
          | .error _ =>
            .error ⟨500, "Failed to check outstanding balances: " ++
              "Cannot read properties of undefined (reading 'find')"⟩
          | .ok rawBalances =>
            if (rawBalances.find? (fun b => b._id = userId)).any
                (fun memberBalance => 1 / 100 < |memberBalance.amount|) then
              .error ⟨400, "Failed to check outstanding balances: " ++
                memberToRemove.user.name ++
                " has outstanding debts or credits and cannot be removed. " ++
                "Please settle all expenses first."⟩
            else .ok ⟨room.members.filter (fun member => member.user._id ≠ userId)⟩

/-- The assignment `memberToUpdate.role = newRole` on the member that
`room.members.find` returned: the first member with the id. -/
def setRole : List RoomMember → String → String → List RoomMember
  | [], _, _ => []
  | m :: ms, userId, newRole =>
    if m.user._id = userId then { m with role := newRole } :: ms
    else m :: setRole ms userId newRole

/-- The handler `changeMemberRole`: `requester` is `req.user._id`, `userId` and `newRole`
come from the request body; the result is the room as saved or the error response. -/
def changeMemberRole (room : Option Room) (requester : String) (userId : String)
    (newRole : String) : Except HttpError Room :=
  if ¬ (newRole = "user" ∨ newRole = "admin") then
    .error ⟨400, "Invalid role specified. Must be \"user\" or \"admin\"."⟩
  else
    match room with
    | none => .error ⟨404, "Room not found."⟩
    | some room =>
      if ¬ room.members.any
          (fun member => member.user._id = requester ∧ member.role = "admin") then
        .error ⟨403, "Not authorized. Only room admins can change member roles."⟩
      else
        match room.members.find? (fun m => m.user._id = userId) with
        | none => .error ⟨404, "Member not found in this room."⟩
        | some memberToUpdate =>
          if memberToUpdate.user._id = requester ∧ newRole = "user" ∧
              (room.members.filter (fun m => m.role = "admin")).length = 1 then
            .error ⟨400, "You cannot demote yourself as you are the last admin. " ++
              "Appoint another admin first."⟩
          else .ok ⟨setRole room.members userId newRole⟩

/-! ## The treasure controller -/

/-- The body of a treasure request: `amount` is `none` when `typeof amount` is not
`"number"`, an absent `description` is `""`. -/
structure TreasureBody where
  amount : Option ℚ
  description : String
deriving DecidableEq

/-- The handler `addTreasureAmount`: `room` is `req.room`, the result is the room as
saved or the error response.  Saving a stored room with one more transaction whose
description is not empty passes `roomSchema`. -/
def addTreasureAmount (room : RoomDoc) (body : TreasureBody) : Except HttpError RoomDoc :=
  match body.amount with
  | none => .error ⟨400, "Please provide a valid positive amount to add to treasure."⟩
  | some amount =>
    if amount ≤ 0 then
      .error ⟨400, "Please provide a valid positive amount to add to treasure."⟩
    else if body.description = "" then
      .error ⟨400, "Please provide a description for the treasure addition."⟩
    else
      .ok { room with
        treasure := room.treasure + amount
        treasureTransactions :=
          room.treasureTransactions ++ [⟨body.description, amount, "credit"⟩] }

/-- The handler `recordTreasureTransaction`: `room` is `req.room`, the result is the room
as saved or the error response.  The first check throws through `new new Error(...)()`,
which raises a `TypeError` in place of the intended error, after the status is set. -/
def recordTreasureTransaction (room : RoomDoc) (body : TreasureBody) :
    Except HttpError RoomDoc :=
  match body.amount with
  | none => .error ⟨400, "(intermediate value) is not a constructor"⟩
  | some amount =>
    if amount ≤ 0 then .error ⟨400, "(intermediate value) is not a constructor"⟩
    else if body.description = "" then
      .error ⟨400, "Please provide a description for the treasure transaction."⟩
    else if room.treasure < amount then
      .error ⟨400, "Insufficient funds in treasure for this transaction."⟩
    else
      .ok { room with
        treasure := room.treasure - amount
        treasureTransactions :=
          room.treasureTransactions ++ [⟨body.description, amount, "debit"⟩] }

/-- A request to one of the two treasure routes that write. -/
inductive TreasureCall where
  | add (body : TreasureBody)
  | record (body : TreasureBody)
deriving DecidableEq

/-- The response to a treasure request on the stored room. -/
def TreasureCall.response (room : RoomDoc) : TreasureCall → Except HttpError RoomDoc
  | .add body => addTreasureAmount room body
  | .record body => recordTreasureTransaction room body

/-- The stored room after a treasure request: what `room.save()` wrote, or the stored
room as it was when the handler threw before saving. -/
def TreasureCall.stored (room : RoomDoc) (call : TreasureCall) : RoomDoc :=
  match call.response room with
  | .ok saved => saved
  | .error _ => room

/-! ## Specification-side quantities and concrete data for the store and the rooms -/

/-- The room has at least one member whose role is `admin`. -/
def HasAdmin (room : Room) : Prop :=
  ∃ m ∈ room.members, m.role = "admin"

/-- The member that slot `i` of the configuration is assigned to (`none` when there is no
such slot or the slot is assigned to nobody). -/
def assignee (duty : Duty) (i : Nat) : Option String :=
  duty.duties[i]?.bind (fun item => item.assignedTo)

/-- An admin member with the given id and name. -/
def admin (id name : String) : RoomMember := ⟨⟨id, name⟩, "admin"⟩

/-- One duty, assigned to Ann, configured for room `r`. -/
def dutyAnn : Duty := ⟨"r", [⟨"sweep", some "a"⟩], ["a"], 0, []⟩

/-- A store with the room `r`, whose only member is its admin Ann, no expenses, and the
duty configuration of that room. -/
def dbAnn : Database := ⟨[⟨⟨[admin "a" "Ann"]⟩, "r", 0, []⟩], [], [dutyAnn]⟩

/-- Two duties rotating over Ann, Bob and Cy, with Bob in the skip set. -/
def dutySkipB : Duty :=
  ⟨"r", [⟨"d1", some "a"⟩, ⟨"d2", some "b"⟩], ["a", "b", "c"], 0, ["b"]⟩

/-- An admin asks for duties d1 and d2 over a member order that lists Ann twice. -/
def bodyAA : ConfigureBody :=
  ⟨some [⟨"d1"⟩, ⟨"d2"⟩], some ["a", "a"]⟩

/-- A room with the admins Ann and Bob and the plain member Cy. -/
def roomAdmins : Room := ⟨[admin "a" "Ann", admin "b" "Bob", member "c" "Cy"]⟩

/-- A users collection that holds Ann, Bob and Cy. -/
def usersABC : List User := [⟨"a", "Ann"⟩, ⟨"b", "Bob"⟩, ⟨"c", "Cy"⟩]

theorem toFixed2_pos {x : ℚ} (h : 1 / 100 < x) : 1 / 100 ≤ toFixed2 x := by
  unfold toFixed2
  have hx : ¬ x < 0 := by linarith
  rw [if_neg hx]
  have h1 : (1 : ℤ) ≤ ⌊x * 100 + 1 / 2⌋ := by
    rw [Int.le_floor]
    push_cast
    linarith
  have h2 : ((1 : ℤ) : ℚ) ≤ ((⌊x * 100 + 1 / 2⌋ : ℤ) : ℚ) := by exact_mod_cast h1
  push_cast at h2
  linarith

/-! ## The balances object -/

theorem keys_setBalance_nodup (bs : List Balance) (e : Balance) (h : (keys bs).Nodup) :
    (keys (setBalance bs e)).Nodup := by
  induction bs with
  | nil => simp [setBalance, keys]
  | cons b bs ih =>
    simp only [keys, List.map_cons, List.nodup_cons] at h
    by_cases hb : b._id = e._id
    · simp only [setBalance, hb, if_true, keys, List.map_cons, List.nodup_cons]
      rw [← hb]
      exact h
    · simp only [setBalance, hb, if_false, keys, List.map_cons, List.nodup_cons]
      refine ⟨?_, ih h.2⟩
      intro hmem
      have : ∀ (l : List Balance) (k : String), k ∈ keys (setBalance l e) →
          k ∈ keys l ∨ k = e._id := by
        intro l k
        induction l with
        | nil => simp [setBalance, keys]
        | cons c l ihl =>
          by_cases hc : c._id = e._id
          · simp only [setBalance, hc, if_true, keys, List.map_cons, List.mem_cons]
            tauto
          · simp only [setBalance, hc, if_false, keys, List.map_cons, List.mem_cons]
            intro hk
            rcases hk with hk | hk
            · exact Or.inl (Or.inl hk)
            · rcases ihl hk with h1 | h1
              · exact Or.inl (Or.inr h1)
              · exact Or.inr h1
      rcases this bs _ hmem with h1 | h1
      · exact h.1 h1
      · exact hb h1

theorem mem_keys_setBalance (bs : List Balance) (e : Balance) (k : String) :
    k ∈ keys (setBalance bs e) ↔ k ∈ keys bs ∨ k = e._id := by
  induction bs with
  | nil => simp [setBalance, keys]
  | cons b bs ih =>
    by_cases hb : b._id = e._id
    · simp only [setBalance, hb, if_true, keys, List.map_cons, List.mem_cons]
      tauto
    · simp only [setBalance, hb, if_false, keys, List.map_cons, List.mem_cons]
      simp only [keys] at ih
      rw [ih]
      tauto

theorem amount_setBalance_zero (bs : List Balance) (e : Balance) (he : e.amount = 0)
    (h : ∀ b ∈ bs, b.amount = 0) : ∀ b ∈ setBalance bs e, b.amount = 0 := by
  induction bs with
  | nil => simpa [setBalance] using he
  | cons b bs ih =>
    by_cases hb : b._id = e._id
    · simp only [setBalance, hb, if_true, List.mem_cons]
      rintro c (rfl | hc)
      · exact he
      · exact h c (List.mem_cons_of_mem _ hc)
    · simp only [setBalance, hb, if_false, List.mem_cons]
      rintro c (rfl | hc)
      · exact h c (List.mem_cons_self _ _)
      · exact ih (fun d hd => h d (List.mem_cons_of_mem _ hd)) c hc

/-- The invariant of the initialising `forEach`, stated for any starting object. -/
theorem initBalances_aux (members : List RoomMember) (acc : List Balance)
    (hn : (keys acc).Nodup) (hz : ∀ b ∈ acc, b.amount = 0) :
    let r := members.foldl (fun acc m => setBalance acc ⟨m.user._id, m.user.name, 0⟩) acc
    (keys r).Nodup ∧ (∀ b ∈ r, b.amount = 0) ∧
      ∀ k, k ∈ keys r ↔ k ∈ keys acc ∨ k ∈ memberIds members := by
  induction members generalizing acc with
  | nil => exact ⟨hn, hz, fun k => by simp [memberIds]⟩
  | cons m ms ih =>
    have h1 := ih (setBalance acc ⟨m.user._id, m.user.name, 0⟩)
      (keys_setBalance_nodup _ _ hn) (amount_setBalance_zero _ _ rfl hz)
    simp only [List.foldl_cons]
    refine ⟨h1.1, h1.2.1, ?_⟩
    intro k
    rw [h1.2.2 k, mem_keys_setBalance]
    simp only [memberIds, List.map_cons, List.mem_cons]
    tauto

theorem keys_initBalances_nodup (members : List RoomMember) :
    (keys (initBalances members)).Nodup :=
  (initBalances_aux members [] (by simp [keys]) (by simp)).1

theorem amount_initBalances (members : List RoomMember) :
    ∀ b ∈ initBalances members, b.amount = 0 :=
  (initBalances_aux members [] (by simp [keys]) (by simp)).2.1

theorem mem_keys_initBalances (members : List RoomMember) (k : String) :
    k ∈ keys (initBalances members) ↔ k ∈ memberIds members := by
  have h := (initBalances_aux members [] (by simp [keys]) (by simp)).2.2 k
  simpa [keys] using h

theorem keys_addToBalance (bs : List Balance) (id : String) (delta : ℚ) :
    keys (addToBalance bs id delta) = keys bs := by
  induction bs with
  | nil => rfl
  | cons b bs ih =>
    by_cases hb : b._id = id
    · simp [addToBalance, hb, keys]
    · simp only [keys] at ih
      simp [addToBalance, hb, keys, ih]

theorem amountAt_addToBalance (bs : List Balance) (id : String) (delta : ℚ) (k : String) :
    amountAt (addToBalance bs id delta) k =
      amountAt bs k + (if k = id ∧ id ∈ keys bs then delta else 0) := by
  induction bs with
  | nil => simp [addToBalance, amountAt, keys]
  | cons b bs ih =>
    by_cases hb : b._id = id
    · by_cases hk : k = id
      · subst hk
        simp [addToBalance, hb, amountAt, keys, List.filter_cons]
        ring
      · have hbk : ¬ b._id = k := fun h => hk (h.symm.trans hb)
        have hik : ¬ id = k := fun h => hk h.symm
        simp [addToBalance, hb, amountAt, keys, List.filter_cons, hk, hbk, hik]
    · simp only [amountAt, keys] at ih
      by_cases hk : k = id
      · subst hk
        have hne : ¬ k = b._id := fun h => hb h.symm
        simp [addToBalance, hb, amountAt, keys, List.filter_cons, ih, hne]
      · by_cases hbk : b._id = k
        · simp [addToBalance, hb, amountAt, keys, List.filter_cons, ih, hk, hbk]
        · simp [addToBalance, hb, amountAt, keys, List.filter_cons, ih, hk, hbk]

theorem sumAmounts_addToBalance (bs : List Balance) (id : String) (delta : ℚ) :
    sumAmounts (addToBalance bs id delta) =
      sumAmounts bs + (if id ∈ keys bs then delta else 0) := by
  induction bs with
  | nil => simp [addToBalance, sumAmounts, keys]
  | cons b bs ih =>
    by_cases hb : b._id = id
    · simp [addToBalance, hb, sumAmounts, keys]
      ring
    · simp only [sumAmounts, keys] at ih
      have hne : ¬ id = b._id := fun h => hb h.symm
      simp [addToBalance, hb, sumAmounts, keys, ih, hne]
      ring

/-- The debits of a list of splits, folded as the inner `forEach` does. -/
theorem foldl_splits (splits : List Split) (acc : List Balance) :
    let r := splits.foldl (fun acc split => addToBalance acc split.user (-split.amount)) acc
    keys r = keys acc ∧
    (∀ k, amountAt r k = amountAt acc k -
      (if k ∈ keys acc then ((splits.filter (fun s => s.user = k)).map
        (fun s => s.amount)).sum else 0)) ∧
    sumAmounts r = sumAmounts acc -
      ((splits.filter (fun s => s.user ∈ keys acc)).map (fun s => s.amount)).sum := by
  induction splits generalizing acc with
  | nil => simp
  | cons s ss ih =>
    have h := ih (addToBalance acc s.user (-s.amount))
    simp only [List.foldl_cons]
    simp only [keys_addToBalance] at h
    refine ⟨h.1, ?_, ?_⟩
    · intro k
      rw [h.2.1 k, amountAt_addToBalance]
      by_cases hk : k ∈ keys acc
      · by_cases hs : s.user = k
        · subst hs
          simp [hk, List.filter_cons]
          ring
        · have hs2 : ¬ k = s.user := fun h => hs h.symm
          simp [hk, List.filter_cons, hs, hs2]
      · have : ¬ (k = s.user ∧ s.user ∈ keys acc) := fun h => hk (h.1 ▸ h.2)
        simp [hk, this]
    · rw [h.2.2, sumAmounts_addToBalance]
      by_cases hs : s.user ∈ keys acc
      · simp [hs, List.filter_cons]
        ring
      · simp [hs, List.filter_cons]

theorem keys_processExpense (bs : List Balance) (e : Expense) :
    keys (processExpense bs e) = keys bs := by
  unfold processExpense
  rw [(foldl_splits e.splits _).1, keys_addToBalance]

theorem amountAt_processExpense (bs : List Balance) (e : Expense) (k : String) :
    amountAt (processExpense bs e) k = amountAt bs k +
      (if k ∈ keys bs then (if e.paidBy = k then e.totalAmount else 0) - owedIn e k
        else 0) := by
  unfold processExpense
  rw [(foldl_splits e.splits _).2.1 k, amountAt_addToBalance, keys_addToBalance]
  by_cases hk : k ∈ keys bs
  · by_cases hp : e.paidBy = k
    · subst hp
      simp [hk, owedIn]
      ring
    · have hp2 : ¬ k = e.paidBy := fun h => hp h.symm
      simp [hk, owedIn, hp, hp2]
      ring
  · have : ¬ (k = e.paidBy ∧ e.paidBy ∈ keys bs) := fun h => hk (h.1 ▸ h.2)
    simp [hk, this]

theorem foldl_processExpense (expenses : List Expense) (acc : List Balance) :
    keys (expenses.foldl processExpense acc) = keys acc ∧
    ∀ k, amountAt (expenses.foldl processExpense acc) k = amountAt acc k +
      (if k ∈ keys acc then paidTotal expenses k - owedTotal expenses k else 0) := by
  induction expenses generalizing acc with
  | nil => simp [paidTotal, owedTotal]
  | cons e es ih =>
    have h := ih (processExpense acc e)
    simp only [List.foldl_cons]
    rw [keys_processExpense] at h
    refine ⟨h.1, ?_⟩
    intro k
    rw [h.2 k, amountAt_processExpense]
    by_cases hk : k ∈ keys acc
    · by_cases hp : e.paidBy = k
      · simp [hk, hp, paidTotal, owedTotal, List.filter_cons]
        ring
      · simp [hk, hp, paidTotal, owedTotal, List.filter_cons]
        ring
    · simp [hk]

theorem keys_balanceArray (members : List RoomMember) (expenses : List Expense) :
    keys (balanceArray members expenses) = keys (initBalances members) :=
  (foldl_processExpense expenses _).1

theorem amountAt_of_mem {bs : List Balance} (hn : (keys bs).Nodup) {b : Balance}
    (hb : b ∈ bs) : amountAt bs b._id = b.amount := by
  induction bs with
  | nil => simp at hb
  | cons c cs ih =>
    simp only [keys, List.map_cons, List.nodup_cons] at hn
    rcases List.mem_cons.1 hb with rfl | hb
    · have : List.filter (fun c => decide (c._id = b._id)) cs = [] := by
        rw [List.filter_eq_nil_iff]
        intro d hd hdb
        exact hn.1 (List.mem_map.2 ⟨d, hd, by simpa using hdb⟩)
      simp [amountAt, List.filter_cons, this]
    · have hcb : ¬ c._id = b._id := fun h => hn.1 (h ▸ List.mem_map.2 ⟨b, hb, rfl⟩)
      have := ih hn.2 hb
      simp only [amountAt] at this
      simp [amountAt, List.filter_cons, hcb, this]

theorem amountAt_zero_of_all_zero (bs : List Balance) (h : ∀ b ∈ bs, b.amount = 0)
    (k : String) : amountAt bs k = 0 := by
  unfold amountAt
  apply List.sum_eq_zero
  intro x hx
  rcases List.mem_map.1 hx with ⟨b, hb, rfl⟩
  exact h b (List.mem_filter.1 hb).1

theorem getRoomBalances_ok (room : Room) (requester : String) (expenses : List Expense)
    (h : requester ∈ memberIds room.members) :
    getRoomBalances (some room) requester expenses =
      .ok (computeBalances room.members expenses) := by
  have : (room.members.any (fun member => decide (member.user._id = requester))) = true := by
    simp only [memberIds, List.mem_map] at h
    rcases h with ⟨m, hm, rfl⟩
    simp only [List.any_eq_true]
    exact ⟨m, hm, by simp⟩
  simp [getRoomBalances, this]

theorem amountToSettle_facts {d c : Balance} (hd : d.amount < 0) (hc : 0 < c.amount) :
    0 < amountToSettle d c ∧ d.amount + amountToSettle d c ≤ 0 ∧
      0 ≤ c.amount - amountToSettle d c ∧
      (d.amount + amountToSettle d c = 0 ∨ c.amount - amountToSettle d c = 0) := by
  unfold amountToSettle
  rw [abs_of_neg hd]
  rcases le_total (-d.amount) c.amount with h | h
  · rw [min_eq_left h]
    refine ⟨by linarith, by linarith, by linarith, Or.inl (by ring)⟩
  · rw [min_eq_right h]
    refine ⟨hc, by linarith, by linarith, Or.inr (by ring)⟩

theorem allNeg_debtorsAfter {d c : Balance} {ds : List Balance} (hd : AllNeg (d :: ds))
    (hc : 0 < c.amount) : AllNeg (debtorsAfter d c ds) := by
  have hd0 : d.amount < 0 := hd d (List.mem_cons_self _ _)
  have hf := amountToSettle_facts hd0 hc
  unfold debtorsAfter
  split_ifs with h
  · exact fun x hx => hd x (List.mem_cons_of_mem _ hx)
  · intro x hx
    rcases List.mem_cons.1 hx with rfl | hx
    · simp only
      rw [abs_of_nonpos hf.2.1] at h
      linarith
    · exact hd x (List.mem_cons_of_mem _ hx)

theorem allPos_creditorsAfter {d c : Balance} {cs : List Balance} (hc : AllPos (c :: cs)) :
    AllPos (creditorsAfter d c cs) := by
  unfold creditorsAfter
  split_ifs with h
  · exact fun x hx => hc x (List.mem_cons_of_mem _ hx)
  · intro x hx
    rcases List.mem_cons.1 hx with rfl | hx
    · simp only
      linarith
    · exact hc x (List.mem_cons_of_mem _ hx)

/-- Every step of the loop starts from a negative debtor and a positive creditor and
settles the smaller of the two magnitudes. -/
theorem settleLoop_step (fuel : Nat) (ds cs : List Balance) (hd : AllNeg ds)
    (hc : AllPos cs) :
    ∀ s ∈ settleLoop fuel ds cs, s.debtor.amount < 0 ∧ 0 < s.creditor.amount ∧
      s.amountToSettle = min |s.debtor.amount| s.creditor.amount := by
  induction fuel generalizing ds cs with
  | zero => simp [settleLoop]
  | succ n ih =>
    cases ds with
    | nil => simp [settleLoop]
    | cons d ds =>
      cases cs with
      | nil => simp [settleLoop]
      | cons c cs =>
        intro s hs
        simp only [settleLoop, List.mem_cons] at hs
        rcases hs with rfl | hs
        · exact ⟨hd d (List.mem_cons_self _ _), hc c (List.mem_cons_self _ _), rfl⟩
        · exact ih _ _ (allNeg_debtorsAfter hd (hc c (List.mem_cons_self _ _)))
            (allPos_creditorsAfter hc) s hs

theorem allNeg_debtorsOf (bs : List Balance) : AllNeg (debtorsOf bs) := by
  intro d hd
  unfold debtorsOf at hd
  rw [(List.perm_insertionSort _ _).mem_iff] at hd
  simpa using (List.mem_filter.1 hd).2

theorem allPos_creditorsOf (bs : List Balance) : AllPos (creditorsOf bs) := by
  intro c hc
  unfold creditorsOf at hc
  rw [(List.perm_insertionSort _ _).mem_iff] at hc
  simpa using (List.mem_filter.1 hc).2

theorem mem_simplifiedDebts (members : List RoomMember) (expenses : List Expense)
    (t : Settlement) (ht : t ∈ (computeBalances members expenses).simplifiedDebts) :
    ∃ s ∈ settleSteps (balanceArray members expenses), s.recorded = some t := by
  simp only [computeBalances, List.mem_filterMap] at ht
  exact ht

theorem recorded_of_lt {st : Step} (h : 1 / 100 < st.amountToSettle) :
    st.recorded = some ⟨st.debtor.name, st.creditor.name, toFixed2 st.amountToSettle⟩ := by
  unfold Step.recorded
  rw [if_pos h]

theorem recorded_of_not_lt {st : Step} (h : ¬ 1 / 100 < st.amountToSettle) :
    st.recorded = none := by
  unfold Step.recorded
  rw [if_neg h]

theorem mem_creditorsOf {bs : List Balance} {b : Balance} :
    b ∈ creditorsOf bs ↔ b ∈ bs ∧ 0 < b.amount := by
  unfold creditorsOf
  rw [(List.perm_insertionSort _ _).mem_iff, List.mem_filter]
  simp

theorem mem_debtorsOf {bs : List Balance} {b : Balance} :
    b ∈ debtorsOf bs ↔ b ∈ bs ∧ b.amount < 0 := by
  unfold debtorsOf
  rw [(List.perm_insertionSort _ _).mem_iff, List.mem_filter]
  simp

theorem addExpense_of_passes {room : Room} {requester : String} {body : AddExpenseBody}
    {splits : List SplitInput} (h : PassesChecks room requester body splits) :
    addExpense (some room) requester body =
      match processedSplits body.splitType body.totalAmount splits with
      | .error e => .error e
      | .ok processed =>
        Expense.create ⟨body.roomId, body.description, body.totalAmount, body.paidBy,
          body.splitType, processed⟩ := by
  obtain ⟨h1, h2, h3, h4, h5, h6, h7, h8, h9⟩ := h
  have hfind : splits.find? (fun s => decide (¬ s.user ∈ memberIds room.members)) = none := by
    rw [List.find?_eq_none]
    intro s hs
    simpa using h9 s hs
  unfold addExpense
  rw [h1]
  simp only [h2, h3, h4, h5, h6, or_self, if_false, h7, h8, not_true_eq_false, hfind]
  try rfl

theorem passes_of_ok {room : Option Room} {requester : String} {body : AddExpenseBody}
    {e : Expense} (h : addExpense room requester body = .ok e) :
    ∃ r splits, room = some r ∧ PassesChecks r requester body splits := by
  unfold addExpense at h
  cases hs : body.splits with
  | none => rw [hs] at h; simp at h
  | some splits =>
    rw [hs] at h
    simp only at h
    split_ifs at h with h1
    cases room with
    | none => simp at h
    | some r =>
      simp only at h
      split_ifs at h with h2 h3
      refine ⟨r, splits, rfl, hs, ?_⟩
      simp only [not_or] at h1
      simp only [not_not] at h2 h3
      refine ⟨h1.1, h1.2.1, h1.2.2.1, h1.2.2.2.1, h1.2.2.2.2, h2, h3, ?_⟩
      cases hf : splits.find? (fun s => decide (¬ s.user ∈ memberIds r.members)) with
      | some s => rw [hf] at h; simp at h
      | none =>
        rw [List.find?_eq_none] at hf
        intro s hs'
        simpa using hf s hs'

theorem create_ok {doc e : Expense} (h : Expense.create doc = .ok e) :
    trim doc.description ≠ "" ∧ 1 / 100 ≤ doc.totalAmount ∧
      e = { doc with description := trim doc.description } := by
  unfold Expense.create at h
  split_ifs at h with h1 h2
  refine ⟨h1, le_of_not_lt h2, ?_⟩
  cases h
  rfl

/-- What an accepted request stores. -/
theorem addExpense_ok {room : Option Room} {requester : String} {body : AddExpenseBody}
    {e : Expense} (h : addExpense room requester body = .ok e) :
    ∃ r splits processed, room = some r ∧ PassesChecks r requester body splits ∧
      processedSplits body.splitType body.totalAmount splits = .ok processed ∧
      trim body.description ≠ "" ∧ 1 / 100 ≤ body.totalAmount ∧
      e = ⟨body.roomId, trim body.description, body.totalAmount, body.paidBy,
        body.splitType, processed⟩ := by
  obtain ⟨r, splits, rfl, hp⟩ := passes_of_ok h
  rw [addExpense_of_passes hp] at h
  cases hps : processedSplits body.splitType body.totalAmount splits with
  | error err => rw [hps] at h; simp at h
  | ok processed =>
    rw [hps] at h
    simp only at h
    obtain ⟨h1, h2, h3⟩ := create_ok h
    exact ⟨r, splits, processed, rfl, hp, hps, h1, h2, h3⟩

theorem addExpense_error_of_not_ok {room : Option Room} {requester : String}
    {body : AddExpenseBody} (h : ∀ e, addExpense room requester body ≠ .ok e) :
    ∃ err, addExpense room requester body = .error err := by
  cases hres : addExpense room requester body with
  | error err => exact ⟨err, rfl⟩
  | ok e => exact absurd hres (h e)

/-- C11: whatever the split type and the other inputs, `addExpense` rejects a request one
of whose split entries names a user who is not a member of the room; when the checks
before it pass, the rejection is the 400 of the membership loop over `splits`. -/
theorem addExpense_rejects_non_member (room : Room) (requester : String)
    (body : AddExpenseBody) (splits : List SplitInput) (s : SplitInput)
    (hsplits : body.splits = some splits) (hs : s ∈ splits)
    (hnot : s.user ∉ memberIds room.members) :
    (∃ err, addExpense (some room) requester body = .error err) ∧
    (body.roomId ≠ "" → body.description ≠ "" → body.totalAmount ≠ 0 → body.paidBy ≠ "" →
      body.splitType ≠ "" → requester ∈ memberIds room.members →
      body.paidBy ∈ memberIds room.members →
      ∃ t ∈ splits, t.user ∉ memberIds room.members ∧
        addExpense (some room) requester body =
          .error ⟨400, "User " ++ t.user ++ " in splits is not a member of this room."⟩) := by
  constructor
  · apply addExpense_error_of_not_ok
    intro e he
    obtain ⟨r, splits', hr, hp⟩ := passes_of_ok he
    cases hr
    have hsp : splits' = splits := by
      have := hp.1.symm.trans hsplits
      simpa using this
    subst hsp
    exact hnot (hp.2.2.2.2.2.2.2.2 s hs)
  · intro h1 h2 h3 h4 h5 h6 h7
    cases hf : splits.find? (fun s => decide (¬ s.user ∈ memberIds room.members)) with
    | none =>
      rw [List.find?_eq_none] at hf
      exact absurd (by simpa using hf s hs) hnot
    | some t =>
      have ht := List.find?_some hf
      have htm := List.mem_of_find?_eq_some hf
      refine ⟨t, htm, by simpa using ht, ?_⟩
      unfold addExpense
      rw [hsplits]
      simp only [h1, h2, h3, h4, h5, or_self, if_false, h6, h7, not_true_eq_false, hf]

theorem not_mem_bodyStranger : "z" ∉ memberIds roomAB.members := by
  simp [memberIds, roomAB, member]

/-- Witness of C11: an equal split between Ann and a stranger. -/
theorem addExpense_rejects_non_member_witness :
    (bodyStranger.splits = some [splitFor "a", splitFor "z"] ∧
      splitFor "z" ∈ [splitFor "a", splitFor "z"] ∧
      (splitFor "z").user ∉ memberIds roomAB.members) ∧
    ((∃ err, addExpense (some roomAB) "a" bodyStranger = .error err) ∧
    (bodyStranger.roomId ≠ "" → bodyStranger.description ≠ "" →
      bodyStranger.totalAmount ≠ 0 → bodyStranger.paidBy ≠ "" →
      bodyStranger.splitType ≠ "" → "a" ∈ memberIds roomAB.members →
      bodyStranger.paidBy ∈ memberIds roomAB.members →
      ∃ t ∈ [splitFor "a", splitFor "z"], t.user ∉ memberIds roomAB.members ∧
        addExpense (some roomAB) "a" bodyStranger =
          .error ⟨400, "User " ++ t.user ++ " in splits is not a member of this room."⟩)) :=
  ⟨⟨rfl, by simp, not_mem_bodyStranger⟩,
    addExpense_rejects_non_member roomAB "a" bodyStranger [splitFor "a", splitFor "z"]
      (splitFor "z") rfl (by simp) not_mem_bodyStranger⟩

/-- C12: whatever the split type, `addExpense` rejects a request whose `totalAmount` is
zero or negative (zero by the required-fields check, a negative amount at the latest by
the schema minimum of 0.01), so no expense is stored. -/
theorem addExpense_rejects_non_positive (room : Option Room) (requester : String)
    (body : AddExpenseBody) (h : body.totalAmount ≤ 0) :
    (∃ err, addExpense room requester body = .error err) ∧
    ∀ e, addExpense room requester body ≠ .ok e := by
  have hno : ∀ e, addExpense room requester body ≠ .ok e := by
    intro e he
    obtain ⟨_, _, _, _, _, _, _, ht, _⟩ := addExpense_ok he
    linarith
  exact ⟨addExpense_error_of_not_ok hno, hno⟩

/-- Witness of C12: -5 split equally between Ann and Bob passes every check of the
handler and is rejected by the schema. -/
theorem addExpense_rejects_non_positive_witness :
    bodyNegative.totalAmount ≤ 0 ∧
    ((∃ err, addExpense (some roomAB) "a" bodyNegative = .error err) ∧
    ∀ e, addExpense (some roomAB) "a" bodyNegative ≠ .ok e) :=
  ⟨by norm_num [bodyNegative],
    addExpense_rejects_non_positive (some roomAB) "a" bodyNegative
      (by norm_num [bodyNegative])⟩

/-! ## The rotation tick -/

theorem rotation_of_nonempty {duty : Duty} (hm : duty.memberOrder ≠ [])
    (hd : duty.duties ≠ []) : rotation duty = some (nextIndex duty, updatedDocs duty) := by
  unfold rotation
  have h1 : ¬ duty.memberOrder.length = 0 := fun h => hm (List.length_eq_zero.1 h)
  have h2 : ¬ duty.duties.length = 0 := fun h => hd (List.length_eq_zero.1 h)
  simp [h1, h2]

theorem incrementDutyIndex_of_nonempty {duty : Duty} (hm : duty.memberOrder ≠ [])
    (hd : duty.duties ≠ []) :
    incrementDutyIndex duty =
      { duty with currentStartingMemberIndex := nextIndex duty, duties := updatedDocs duty } := by
  unfold incrementDutyIndex
  rw [rotation_of_nonempty hm hd]

theorem rotation_of_empty {duty : Duty} (h : duty.memberOrder = [] ∨ duty.duties = []) :
    rotation duty = none := by
  unfold rotation
  have : duty.memberOrder.length = 0 ∨ duty.duties.length = 0 := by
    rcases h with h | h
    · exact Or.inl (by rw [h]; rfl)
    · exact Or.inr (by rw [h]; rfl)
  rw [if_pos this]

theorem nextIndex_lt {duty : Duty} (hm : duty.memberOrder ≠ []) :
    nextIndex duty < duty.memberOrder.length := by
  have hpos : 0 < duty.memberOrder.length := List.length_pos.2 hm
  unfold nextIndex
  split_ifs with h
  · exact hpos
  · omega

theorem nextIndex_eq_mod {duty : Duty}
    (hc : duty.currentStartingMemberIndex < duty.memberOrder.length) :
    nextIndex duty = (duty.currentStartingMemberIndex + 1) % duty.memberOrder.length := by
  unfold nextIndex
  split_ifs with h
  · have : duty.currentStartingMemberIndex + 1 = duty.memberOrder.length := by omega
    rw [this, Nat.mod_self]
  · rw [Nat.mod_eq_of_lt (by omega)]

theorem startIdx_eq {duty : Duty} (hm : duty.memberOrder ≠ []) :
    startIdx duty = nextIndex duty := by
  unfold startIdx
  exact Nat.mod_eq_of_lt (nextIndex_lt hm)

theorem ringPosition_eq {duty : Duty} (hm : duty.memberOrder ≠ []) (i : Nat) :
    ringPosition duty i = (nextIndex duty + i) % duty.memberOrder.length := by
  unfold ringPosition
  rw [startIdx_eq hm]

theorem getElem?_updatedDocs (duty : Duty) (i : Nat) :
    (updatedDocs duty)[i]? = duty.duties[i]?.map
      (fun doc => { doc with assignedTo := duty.memberOrder[ringPosition duty i]? }) := by
  simp [updatedDocs]

theorem add_mod_injective {n a i j : Nat} (hi : i < n) (hj : j < n)
    (h : (a + i) % n = (a + j) % n) : i = j := by
  have h1 : a + i ≡ a + j [MOD n] := h
  exact (Nat.ModEq.add_left_cancel' a h1).eq_of_lt_of_lt hi hj

/-- C16: whenever there are no more duties than members in the order, a rotation tick
gives distinct slots distinct ring positions: for slot indices i ≠ j,
(nextIndex + i) mod memberOrder.length ≠ (nextIndex + j) mod memberOrder.length, and
likewise for the positions `(startIdx + i) % members.length` that the job uses. -/
theorem ringPosition_distinct (duty : Duty)
    (hle : duty.duties.length ≤ duty.memberOrder.length) (i j : Nat)
    (hi : i < duty.duties.length) (hj : j < duty.duties.length) (hij : i ≠ j) :
    (nextIndex duty + i) % duty.memberOrder.length ≠
      (nextIndex duty + j) % duty.memberOrder.length ∧
    ringPosition duty i ≠ ringPosition duty j := by
  constructor
  · intro h
    exact hij (add_mod_injective (by omega) (by omega) h)
  · intro h
    exact hij (add_mod_injective (by omega) (by omega) h)

/-- Witness of C16: the two slots of `dutyABC`. -/
theorem ringPosition_distinct_witness :
    (dutyABC.duties.length ≤ dutyABC.memberOrder.length ∧ 0 < dutyABC.duties.length ∧
      1 < dutyABC.duties.length ∧ (0 : Nat) ≠ 1) ∧
    ((nextIndex dutyABC + 0) % dutyABC.memberOrder.length ≠
      (nextIndex dutyABC + 1) % dutyABC.memberOrder.length ∧
    ringPosition dutyABC 0 ≠ ringPosition dutyABC 1) :=
  ⟨⟨by decide, by decide, by decide, by decide⟩,
    ringPosition_distinct dutyABC (by decide) 0 1 (by decide) (by decide) (by decide)⟩

/-- C17: a rotation tick on a configuration whose `memberOrder` is empty or whose duties
list is empty returns without an update and without an error: the stored configuration
(cursor, duties and every other field) is unchanged. -/
theorem incrementDutyIndex_noop (duty : Duty)
    (h : duty.memberOrder = [] ∨ duty.duties = []) :
    rotation duty = none ∧ incrementDutyIndex duty = duty := by
  have hr := rotation_of_empty h
  refine ⟨hr, ?_⟩
  unfold incrementDutyIndex
  rw [hr]

/-- Witness of C17: a configuration with an empty member order, and one without duties. -/
theorem incrementDutyIndex_noop_witness :
    ((dutyNoMembers.memberOrder = [] ∨ dutyNoMembers.duties = []) ∧
      rotation dutyNoMembers = none ∧ incrementDutyIndex dutyNoMembers = dutyNoMembers) ∧
    ((dutyNoDuties.memberOrder = [] ∨ dutyNoDuties.duties = []) ∧
      rotation dutyNoDuties = none ∧ incrementDutyIndex dutyNoDuties = dutyNoDuties) :=
  ⟨⟨Or.inl rfl, incrementDutyIndex_noop dutyNoMembers (Or.inl rfl)⟩,
    ⟨Or.inr rfl, incrementDutyIndex_noop dutyNoDuties (Or.inr rfl)⟩⟩

/-! ## createOrUpdateDuties -/

theorem description_dutyDocs (duties : List DutyInput) (memberOrder : List String) :
    (dutyDocs duties memberOrder).map (fun d => d.description) =
      duties.map (fun d => d.description) := by
  apply List.ext_getElem?
  intro i
  simp only [dutyDocs, List.getElem?_map, List.getElem?_mapIdx]
  cases duties[i]? <;> rfl

theorem length_dutyDocs (duties : List DutyInput) (memberOrder : List String) :
    (dutyDocs duties memberOrder).length = duties.length := by
  simp [dutyDocs]

theorem any_blank_dutyDocs (duties : List DutyInput) (memberOrder : List String) :
    (dutyDocs duties memberOrder).any (fun d => decide (trim d.description = "")) = true ↔
      ∃ d ∈ duties, trim d.description = "" := by
  have h := description_dutyDocs duties memberOrder
  rw [List.any_eq_true]
  constructor
  · rintro ⟨x, hx, hb⟩
    have hmem : x.description ∈ (dutyDocs duties memberOrder).map (fun d => d.description) :=
      List.mem_map.2 ⟨x, hx, rfl⟩
    rw [h] at hmem
    obtain ⟨d, hd, hdx⟩ := List.mem_map.1 hmem
    exact ⟨d, hd, by rw [hdx]; simpa using hb⟩
  · rintro ⟨d, hd, hb⟩
    have hmem : d.description ∈ duties.map (fun d => d.description) :=
      List.mem_map.2 ⟨d, hd, rfl⟩
    rw [← h] at hmem
    obtain ⟨x, hx, hxd⟩ := List.mem_map.1 hmem
    exact ⟨x, hx, by rw [hxd]; simpa using hb⟩

/-- The handler on a request that passes its four validations: the configuration that
is handed to the store. -/
theorem createOrUpdateDuties_of_valid (room : Room) (existing : Option Duty)
    (roomId : String) (body : ConfigureBody) (duties : List DutyInput)
    (memberOrder : List String) (hd : body.duties = some duties)
    (hmo : body.memberOrder = some memberOrder) (h1 : duties ≠ []) (h2 : memberOrder ≠ [])
    (h3 : duties.length ≤ memberOrder.length)
    (h4 : ∀ id ∈ memberOrder, id ∈ memberIds room.members) :
    createOrUpdateDuties (some room) existing roomId body =
      Duty.save ⟨(existing.map (fun d => d.roomId)).getD roomId,
        dutyDocs duties memberOrder, memberOrder, 0, []⟩ := by
  have e1 : ¬ duties.length = 0 := fun h => h1 (List.length_eq_zero.1 h)
  have e2 : ¬ memberOrder.length = 0 := fun h => h2 (List.length_eq_zero.1 h)
  have e3 : ¬ memberOrder.length < duties.length := by omega
  have e4 : memberOrder.filter (fun id => decide (¬ id ∈ memberIds room.members)) = [] := by
    rw [List.filter_eq_nil_iff]
    intro id hid
    simpa using h4 id hid
  unfold createOrUpdateDuties
  rw [hd, hmo]
  simp only [e1, e2, e3, e4, if_false, List.length_nil, gt_iff_lt, lt_self_iff_false]
  cases existing <;> rfl

theorem save_ok_iff (doc : Duty) :
    (∃ cfg, Duty.save doc = .ok cfg) ↔
      ¬ (doc.duties.any (fun d => decide (trim d.description = "")) = true) := by
  unfold Duty.save
  split_ifs with h
  · simp [h]
  · simp [h]

/-- An accepted request passes every validation, and conversely. -/
theorem createOrUpdateDuties_ok_iff (room : Room) (existing : Option Duty) (roomId : String)
    (body : ConfigureBody) :
    (∃ cfg, createOrUpdateDuties (some room) existing roomId body = .ok cfg) ↔
      ∃ duties memberOrder, body.duties = some duties ∧ body.memberOrder = some memberOrder ∧
        ValidConfiguration room duties memberOrder := by
  constructor
  · rintro ⟨cfg, h⟩
    cases hd : body.duties with
    | none => simp [createOrUpdateDuties, hd] at h
    | some duties =>
      cases hmo : body.memberOrder with
      | none =>
        unfold createOrUpdateDuties at h
        rw [hd, hmo] at h
        simp only at h
        split_ifs at h
      | some memberOrder =>
        by_cases h1 : duties.length = 0
        · simp [createOrUpdateDuties, hd, h1] at h
        · by_cases h2 : memberOrder.length = 0
          · simp [createOrUpdateDuties, hd, hmo, h1, h2] at h
          · by_cases h3 : memberOrder.length < duties.length
            · simp [createOrUpdateDuties, hd, hmo, h1, h2, h3] at h
            · by_cases h4 : ∀ id ∈ memberOrder, id ∈ memberIds room.members
              · have hn1 : duties ≠ [] := fun h0 => h1 (by rw [h0]; rfl)
                have hn2 : memberOrder ≠ [] := fun h0 => h2 (by rw [h0]; rfl)
                rw [createOrUpdateDuties_of_valid room existing roomId body duties
                  memberOrder hd hmo hn1 hn2 (by omega) h4] at h
                have hs := (save_ok_iff _).1 ⟨cfg, h⟩
                simp only at hs
                rw [any_blank_dutyDocs] at hs
                refine ⟨duties, memberOrder, rfl, rfl, hn1, hn2, by omega, h4, ?_⟩
                intro d hdm hb
                exact hs ⟨d, hdm, hb⟩
              · exfalso
                have e4 : memberOrder.filter
                    (fun id => decide (¬ id ∈ memberIds room.members)) ≠ [] := by
                  intro h0
                  rw [List.filter_eq_nil_iff] at h0
                  apply h4
                  intro id hid
                  simpa using h0 id hid
                have e5 : 0 < (memberOrder.filter
                    (fun id => decide (¬ id ∈ memberIds room.members))).length :=
                  List.length_pos.2 e4
                unfold createOrUpdateDuties at h
                rw [hd, hmo] at h
                simp only [h1, h2, h3, if_false, gt_iff_lt, e5, if_true] at h
                cases h
  · rintro ⟨duties, memberOrder, hd, hmo, h1, h2, h3, h4, h5⟩
    rw [createOrUpdateDuties_of_valid room existing roomId body duties memberOrder hd hmo
      h1 h2 h3 h4]
    rw [save_ok_iff]
    simp only
    rw [any_blank_dutyDocs]
    rintro ⟨d, hdm, hb⟩
    exact h5 d hdm hb

theorem error_iff_not_ok {α : Type} (x : Except HttpError α) :
    (∃ err, x = .error err) ↔ ¬ ∃ a, x = .ok a := by
  cases x with
  | error e => simp
  | ok a => simp

/-- C18, amended: for an existing room, `createOrUpdateDuties` rejects the request if and
only if `duties` is missing or empty, `memberOrder` is missing or empty,
`duties.length > memberOrder.length`, some id in `memberOrder` is not a current member
of the room, or some duty has a missing or blank description (rejected by the schema
when the configuration is saved); every other input is accepted. -/
theorem createOrUpdateDuties_rejects_iff (room : Room) (existing : Option Duty)
    (roomId : String) (body : ConfigureBody) :
    (∃ err, createOrUpdateDuties (some room) existing roomId body = .error err) ↔
      (body.duties.getD [] = [] ∨ body.memberOrder.getD [] = [] ∨
        (body.memberOrder.getD []).length < (body.duties.getD []).length ∨
        (∃ id ∈ body.memberOrder.getD [], id ∉ memberIds room.members) ∨
        ∃ d ∈ body.duties.getD [], trim d.description = "") := by
  rw [error_iff_not_ok, createOrUpdateDuties_ok_iff]
  cases hd : body.duties with
  | none => simp
  | some duties =>
    cases hmo : body.memberOrder with
    | none => simp
    | some memberOrder =>
      simp only [Option.some.injEq, Option.getD_some, ValidConfiguration]
      constructor
      · intro h
        by_contra hcon
        simp only [not_or, not_exists, not_and, not_lt, not_not] at hcon
        exact h ⟨duties, memberOrder, rfl, rfl, hcon.1, hcon.2.1, hcon.2.2.1,
          fun id hid => hcon.2.2.2.1 id hid, fun d hdm => hcon.2.2.2.2 d hdm⟩
      · rintro h ⟨ds, mo, rfl, rfl, h1, h2, h3, h4, h5⟩
        rcases h with h | h | h | ⟨id, hid, hnot⟩ | ⟨d, hdm, hb⟩
        · exact h1 h
        · exact h2 h
        · omega
        · exact hnot (h4 id hid)
        · exact h5 d hdm hb

theorem createOrUpdateDuties_bodyNoDescription :
    createOrUpdateDuties (some roomA) none "r" bodyNoDescription =
      .error ⟨500, "Duty validation failed: duties.description"⟩ := by
  rfl

/-- C18 fails as stated: a request with one duty that has no description, for the order
[Ann] in a room whose member is Ann, meets none of the four conditions of the claim
(one duty, one member in the order, 1 <= 1, Ann is a member) and is still rejected, by
the required `description` of the schema. -/
theorem createOrUpdateDuties_rejects_counterexample :
    bodyNoDescription.duties = some [⟨""⟩] ∧ bodyNoDescription.memberOrder = some ["a"] ∧
    ([(⟨""⟩ : DutyInput)]).length ≤ (["a"]).length ∧
    (∀ id ∈ ["a"], id ∈ memberIds roomA.members) ∧
    ∃ err, createOrUpdateDuties (some roomA) none "r" bodyNoDescription = .error err := by
  refine ⟨rfl, rfl, by decide, ?_, _, createOrUpdateDuties_bodyNoDescription⟩
  simp [memberIds, roomA, member]

/-- What an accepted request stores. -/
theorem createOrUpdateDuties_ok {room : Room} {existing : Option Duty} {roomId : String}
    {body : ConfigureBody} {cfg : Duty}
    (h : createOrUpdateDuties (some room) existing roomId body = .ok cfg) :
    ∃ duties memberOrder, body.duties = some duties ∧ body.memberOrder = some memberOrder ∧
      ValidConfiguration room duties memberOrder ∧
      cfg = ⟨(existing.map (fun d => d.roomId)).getD roomId,
        (dutyDocs duties memberOrder).map (fun d => { d with description := trim d.description }),
        memberOrder, 0, []⟩ := by
  obtain ⟨duties, memberOrder, hd, hmo, hv⟩ :=
    (createOrUpdateDuties_ok_iff room existing roomId body).1 ⟨cfg, h⟩
  refine ⟨duties, memberOrder, hd, hmo, hv, ?_⟩
  obtain ⟨h1, h2, h3, h4, h5⟩ := hv
  rw [createOrUpdateDuties_of_valid room existing roomId body duties memberOrder hd hmo
    h1 h2 h3 h4] at h
  unfold Duty.save at h
  split_ifs at h with hb
  simp only [Except.ok.injEq] at h
  exact h.symm

theorem orNull_getElem? {room : Room} {memberOrder : List String}
    (hid : "" ∉ memberIds room.members)
    (h4 : ∀ id ∈ memberOrder, id ∈ memberIds room.members) (i : Nat) :
    orNull memberOrder[i]? = memberOrder[i]? := by
  cases hi : memberOrder[i]? with
  | none => rfl
  | some id =>
    have hmem : id ∈ memberOrder := List.getElem?_mem hi
    have hne : id ≠ "" := fun h0 => hid (h0 ▸ h4 id hmem)
    simp [orNull, hne]

/-- C19, amended: when `createOrUpdateDuties` succeeds, whether or not a configuration
already existed, the stored configuration has one slot per supplied duty, in order, with
the supplied description trimmed of surrounding white space, the supplied `memberOrder`,
`currentStartingMemberIndex` 0, an empty `skippedMembersForCurrentCycle`, and slot i
assigned `memberOrder[i]`, whatever the previous cursor and assignments were.  (Member
ids are not empty: an ObjectId prints as 24 hexadecimal digits.) -/
theorem createOrUpdateDuties_stored (room : Room) (existing : Option Duty) (roomId : String)
    (body : ConfigureBody) (cfg : Duty)
    (h : createOrUpdateDuties (some room) existing roomId body = .ok cfg)
    (hid : "" ∉ memberIds room.members) :
    ∃ duties memberOrder, body.duties = some duties ∧ body.memberOrder = some memberOrder ∧
      cfg.duties.map (fun d => d.description) = duties.map (fun d => trim d.description) ∧
      cfg.memberOrder = memberOrder ∧ cfg.currentStartingMemberIndex = 0 ∧
      cfg.skippedMembersForCurrentCycle = [] ∧
      ∀ i, i < duties.length → ∃ item member,
        cfg.duties[i]? = some item ∧ memberOrder[i]? = some member ∧
        item.assignedTo = some member := by
  obtain ⟨duties, memberOrder, hd, hmo, hv, rfl⟩ := createOrUpdateDuties_ok h
  obtain ⟨h1, h2, h3, h4, h5⟩ := hv
  refine ⟨duties, memberOrder, hd, hmo, ?_, rfl, rfl, rfl, ?_⟩
  · simp only [List.map_map, Function.comp_def]
    apply List.ext_getElem?
    intro i
    simp only [dutyDocs, List.getElem?_map, List.getElem?_mapIdx]
    cases duties[i]? <;> rfl
  · intro i hi
    have hi2 : i < memberOrder.length := by omega
    refine ⟨⟨trim duties[i].description, some memberOrder[i]⟩, memberOrder[i], ?_,
      List.getElem?_eq_getElem hi2, rfl⟩
    simp only [dutyDocs, List.getElem?_map, List.getElem?_mapIdx,
      List.getElem?_eq_getElem hi, Option.map_some', orNull_getElem? hid h4,
      List.getElem?_eq_getElem hi2]

theorem createOrUpdateDuties_bodyABC :
    createOrUpdateDuties (some roomThree) none "r" bodyABC = .ok dutyABC := by
  rfl

theorem no_empty_id_roomThree : "" ∉ memberIds roomThree.members := by
  simp [memberIds, roomThree, member]

/-- Witness of the amended C19: two duties over Ann, Bob and Cy. -/
theorem createOrUpdateDuties_stored_witness :
    (createOrUpdateDuties (some roomThree) none "r" bodyABC = .ok dutyABC ∧
      "" ∉ memberIds roomThree.members) ∧
    ∃ duties memberOrder, bodyABC.duties = some duties ∧
      bodyABC.memberOrder = some memberOrder ∧
      dutyABC.duties.map (fun d => d.description) = duties.map (fun d => trim d.description) ∧
      dutyABC.memberOrder = memberOrder ∧ dutyABC.currentStartingMemberIndex = 0 ∧
      dutyABC.skippedMembersForCurrentCycle = [] ∧
      ∀ i, i < duties.length → ∃ item member,
        dutyABC.duties[i]? = some item ∧ memberOrder[i]? = some member ∧
        item.assignedTo = some member :=
  ⟨⟨createOrUpdateDuties_bodyABC, no_empty_id_roomThree⟩,
    createOrUpdateDuties_stored roomThree none "r" bodyABC dutyABC
      createOrUpdateDuties_bodyABC no_empty_id_roomThree⟩

/-- C19 fails as stated: the stored duties are not exactly the supplied ones.  For the
supplied description " sweep " the schema's `trim` stores "sweep". -/
theorem createOrUpdateDuties_stored_counterexample :
    bodySweep.duties = some [⟨" sweep "⟩] ∧
    ∃ cfg, createOrUpdateDuties (some roomA) none "r" bodySweep = .ok cfg ∧
      cfg.duties.map (fun d => d.description) = ["sweep"] ∧
      ["sweep"] ≠ ([(⟨" sweep "⟩ : DutyInput)]).map (fun d => d.description) := by
  refine ⟨rfl, ⟨"r", [⟨"sweep", some "a"⟩], ["a"], 0, []⟩, by rfl, rfl, by decide⟩

/-! ## Iterating the tick -/

theorem memberOrder_rotated (duty : Duty) (s : Nat) :
    (rotated duty s).memberOrder = duty.memberOrder := rfl

theorem length_duties_rotated (duty : Duty) (s : Nat) :
    (rotated duty s).duties.length = duty.duties.length := by
  simp [rotated]

/-- A tick moves the rotation on by one position. -/
theorem incrementDutyIndex_rotated (duty : Duty) (hm : duty.memberOrder ≠ [])
    (hd : duty.duties ≠ []) (s : Nat) :
    incrementDutyIndex (rotated duty s) = rotated duty (s + 1) := by
  have hpos : 0 < duty.memberOrder.length := List.length_pos.2 hm
  have hm' : (rotated duty s).memberOrder ≠ [] := hm
  have hd' : (rotated duty s).duties ≠ [] := by
    intro h0
    have := congrArg List.length h0
    rw [length_duties_rotated] at this
    exact hd (List.length_eq_zero.1 this)
  have hc : (rotated duty s).currentStartingMemberIndex < (rotated duty s).memberOrder.length :=
    Nat.mod_lt _ hpos
  have hnext : nextIndex (rotated duty s) = (s + 1) % duty.memberOrder.length := by
    rw [nextIndex_eq_mod hc]
    show (s % duty.memberOrder.length + 1) % duty.memberOrder.length = _
    rw [Nat.mod_add_mod]
  rw [incrementDutyIndex_of_nonempty hm' hd', hnext]
  have hdocs : updatedDocs (rotated duty s) = (rotated duty (s + 1)).duties := by
    apply List.ext_getElem?
    intro i
    rw [getElem?_updatedDocs, ringPosition_eq hm', hnext]
    simp only [rotated, List.getElem?_mapIdx, Option.map_map]
    cases duty.duties[i]? with
    | none => rfl
    | some doc =>
      simp only [Option.map_some', Function.comp_apply]
      rw [Nat.mod_add_mod]
  rw [hdocs]
  rfl

theorem iterate_rotated (duty : Duty) (hm : duty.memberOrder ≠ []) (hd : duty.duties ≠ [])
    (s k : Nat) : incrementDutyIndex^[k] (rotated duty s) = rotated duty (s + k) := by
  induction k with
  | zero => rfl
  | succ k ih =>
    rw [Function.iterate_succ_apply', ih, incrementDutyIndex_rotated duty hm hd]
    rfl

/-- A freshly stored configuration is the rotation at position 0. -/
theorem fresh_eq_rotated {room : Room} {existing : Option Duty} {roomId : String}
    {body : ConfigureBody} {cfg : Duty}
    (h : createOrUpdateDuties (some room) existing roomId body = .ok cfg)
    (hid : "" ∉ memberIds room.members) :
    cfg = rotated cfg 0 ∧ cfg.memberOrder ≠ [] ∧ cfg.duties ≠ [] ∧
      cfg.duties.length ≤ cfg.memberOrder.length := by
  obtain ⟨duties, memberOrder, hd, hmo, hv, rfl⟩ := createOrUpdateDuties_ok h
  obtain ⟨h1, h2, h3, h4, h5⟩ := hv
  have hlen : ((dutyDocs duties memberOrder).map
      (fun d => { d with description := trim d.description })).length = duties.length := by
    simp [dutyDocs]
  refine ⟨?_, h2, ?_, by simp only [hlen]; exact h3⟩
  · simp only [rotated, Nat.zero_mod, Nat.zero_add, Duty.mk.injEq, true_and, and_true]
    apply List.ext_getElem?
    intro i
    simp only [dutyDocs, List.getElem?_map, List.getElem?_mapIdx, Option.map_map]
    cases hi : duties[i]? with
    | none => rfl
    | some duty =>
      have hilt : i < duties.length := (List.getElem?_eq_some.1 hi).1
      simp only [Option.map_some', Function.comp_apply, orNull_getElem? hid h4]
      rw [Nat.mod_eq_of_lt (by omega)]
  · intro h0
    have := congrArg List.length h0
    rw [hlen] at this
    exact h1 (List.length_eq_zero.1 this)

/-- C15: starting from the configuration that a successful `createOrUpdateDuties` stores
(cursor 0, slot i assigned `memberOrder[i]`) with n members in the order, after k
rotation ticks the cursor is k mod n and every slot i is assigned
`memberOrder[(k + i) mod n]`; n ticks restore the stored configuration.  For the order
[a, b, c] and the duties d1, d2: one tick gives cursor 1 with d1 -> b, d2 -> c, two
ticks give cursor 2 with d1 -> c, d2 -> a, three ticks give back cursor 0 with d1 -> a,
d2 -> b.  (Member ids are not empty.) -/
theorem incrementDutyIndex_iterate (room : Room) (existing : Option Duty) (roomId : String)
    (body : ConfigureBody) (cfg : Duty)
    (h : createOrUpdateDuties (some room) existing roomId body = .ok cfg)
    (hid : "" ∉ memberIds room.members) :
    (∀ k, (incrementDutyIndex^[k] cfg).currentStartingMemberIndex
        = k % cfg.memberOrder.length ∧
      ∀ i, i < cfg.duties.length → ∃ item member,
        (incrementDutyIndex^[k] cfg).duties[i]? = some item ∧
        cfg.memberOrder[(k + i) % cfg.memberOrder.length]? = some member ∧
        item.assignedTo = some member) ∧
    incrementDutyIndex^[cfg.memberOrder.length] cfg = cfg ∧
    (createOrUpdateDuties (some roomThree) none "r" bodyABC = .ok dutyABC ∧
      incrementDutyIndex^[1] dutyABC =
        ⟨"r", [⟨"d1", some "b"⟩, ⟨"d2", some "c"⟩], ["a", "b", "c"], 1, []⟩ ∧
      incrementDutyIndex^[2] dutyABC =
        ⟨"r", [⟨"d1", some "c"⟩, ⟨"d2", some "a"⟩], ["a", "b", "c"], 2, []⟩ ∧
      incrementDutyIndex^[3] dutyABC =
        ⟨"r", [⟨"d1", some "a"⟩, ⟨"d2", some "b"⟩], ["a", "b", "c"], 0, []⟩) := by
  obtain ⟨hrot, hm, hd, hle⟩ := fresh_eq_rotated h hid
  have hpos : 0 < cfg.memberOrder.length := List.length_pos.2 hm
  have hiter : ∀ k, incrementDutyIndex^[k] cfg = rotated cfg k := by
    intro k
    have := iterate_rotated cfg hm hd 0 k
    rw [← hrot, Nat.zero_add] at this
    exact this
  refine ⟨?_, ?_, createOrUpdateDuties_bodyABC, by decide, by decide, by decide⟩
  · intro k
    rw [hiter k]
    refine ⟨rfl, ?_⟩
    intro i hi
    have hlt : (k + i) % cfg.memberOrder.length < cfg.memberOrder.length :=
      Nat.mod_lt _ hpos
    refine ⟨{ cfg.duties[i] with assignedTo :=
        cfg.memberOrder[(k + i) % cfg.memberOrder.length]? },
      cfg.memberOrder[(k + i) % cfg.memberOrder.length], ?_,
      List.getElem?_eq_getElem hlt, ?_⟩
    · simp only [rotated, List.getElem?_mapIdx, List.getElem?_eq_getElem hi,
        Option.map_some']
    · simp only [List.getElem?_eq_getElem hlt]
  · rw [hiter]
    have h0 : rotated cfg cfg.memberOrder.length = rotated cfg 0 := by
      simp only [rotated, Nat.mod_self, Nat.zero_mod, Nat.zero_add, Duty.mk.injEq,
        true_and, and_true]
      apply List.ext_getElem?
      intro i
      simp only [List.getElem?_mapIdx]
      cases cfg.duties[i]? with
      | none => rfl
      | some doc =>
        simp only [Option.map_some']
        rw [Nat.add_mod_left]
    rw [h0, ← hrot]

/-- Witness of C15: two duties over Ann, Bob and Cy. -/
theorem incrementDutyIndex_iterate_witness :
    (createOrUpdateDuties (some roomThree) none "r" bodyABC = .ok dutyABC ∧
      "" ∉ memberIds roomThree.members) ∧
    ((∀ k, (incrementDutyIndex^[k] dutyABC).currentStartingMemberIndex
        = k % dutyABC.memberOrder.length ∧
      ∀ i, i < dutyABC.duties.length → ∃ item member,
        (incrementDutyIndex^[k] dutyABC).duties[i]? = some item ∧
        dutyABC.memberOrder[(k + i) % dutyABC.memberOrder.length]? = some member ∧
        item.assignedTo = some member) ∧
    incrementDutyIndex^[dutyABC.memberOrder.length] dutyABC = dutyABC ∧
    (createOrUpdateDuties (some roomThree) none "r" bodyABC = .ok dutyABC ∧
      incrementDutyIndex^[1] dutyABC =
        ⟨"r", [⟨"d1", some "b"⟩, ⟨"d2", some "c"⟩], ["a", "b", "c"], 1, []⟩ ∧
      incrementDutyIndex^[2] dutyABC =
        ⟨"r", [⟨"d1", some "c"⟩, ⟨"d2", some "a"⟩], ["a", "b", "c"], 2, []⟩ ∧
      incrementDutyIndex^[3] dutyABC =
        ⟨"r", [⟨"d1", some "a"⟩, ⟨"d2", some "b"⟩], ["a", "b", "c"], 0, []⟩)) :=
  ⟨⟨createOrUpdateDuties_bodyABC, no_empty_id_roomThree⟩,
    incrementDutyIndex_iterate roomThree none "r" bodyABC dutyABC
      createOrUpdateDuties_bodyABC no_empty_id_roomThree⟩

/-! ## getRoomBalances on the populated ledger -/

theorem populated_id {users : List User} {id : String} {u : User}
    (h : populated users id = some u) : u._id = id := by
  have := List.find?_some h
  simpa using this

theorem debitSplits_resolved (users : List User) (splits : List Split) (bs : List Balance)
    (h : ∀ s ∈ splits, ∃ u, populated users s.user = some u) :
    debitSplits users bs splits =
      .ok (splits.foldl (fun acc split => addToBalance acc split.user (-split.amount)) bs) := by
  induction splits generalizing bs with
  | nil => rfl
  | cons s ss ih =>
    obtain ⟨u, hu⟩ := h s (List.mem_cons_self _ _)
    simp only [debitSplits, hu, List.foldl_cons]
    rw [populated_id hu]
    exact ih _ (fun x hx => h x (List.mem_cons_of_mem _ hx))

theorem processLedger_resolved (users : List User) (expenses : List Expense)
    (bs : List Balance) (h : Resolved users expenses) :
    processLedger users bs expenses = .ok (expenses.foldl processExpense bs) := by
  induction expenses generalizing bs with
  | nil => rfl
  | cons e es ih =>
    obtain ⟨⟨u, hu⟩, hs⟩ := h e (List.mem_cons_self _ _)
    simp only [processLedger, hu, List.foldl_cons]
    rw [populated_id hu, debitSplits_resolved users e.splits _ hs]
    exact ih _ (fun x hx => h x (List.mem_cons_of_mem _ hx))

/-- When every referenced user has a document, the handler on the populated ledger is
`getRoomBalances`. -/
theorem getRoomBalancesPopulated_resolved (users : List User) (room : Option Room)
    (requester : String) (expenses : List Expense) (h : Resolved users expenses) :
    getRoomBalancesPopulated users room requester expenses =
      getRoomBalances room requester expenses := by
  unfold getRoomBalancesPopulated getRoomBalances
  cases room with
  | none => rfl
  | some room =>
    simp only
    rw [processLedger_resolved users expenses _ h]
    rfl

/-- A credit or debit for an id that is not a key of `balances` changes nothing. -/
theorem addToBalance_of_not_mem (bs : List Balance) (id : String) (delta : ℚ)
    (h : id ∉ keys bs) : addToBalance bs id delta = bs := by
  induction bs with
  | nil => rfl
  | cons b bs ih =>
    simp only [keys, List.map_cons, List.mem_cons, not_or] at h
    have hb : ¬ b._id = id := fun h0 => h.1 h0.symm
    simp only [addToBalance, hb, if_false]
    rw [ih (by simpa [keys] using h.2)]

/-- The balance of a member is what the ledger entries naming that member add up to:
the totals of the expenses it paid minus the amounts of its own splits; entries naming
anybody else, member or not, do not enter. -/
theorem amountAt_balanceArray (members : List RoomMember) (expenses : List Expense)
    (id : String) :
    amountAt (balanceArray members expenses) id =
      if id ∈ memberIds members then paidTotal expenses id - owedTotal expenses id else 0 := by
  unfold balanceArray
  rw [(foldl_processExpense expenses _).2 id,
    amountAt_zero_of_all_zero _ (amount_initBalances members), zero_add]
  by_cases h : id ∈ memberIds members
  · rw [if_pos ((mem_keys_initBalances members id).2 h), if_pos h]
  · rw [if_neg (fun h0 => h ((mem_keys_initBalances members id).1 h0)), if_neg h]

/-- C20, the code at the failing input: Ann is the only member of the room and the
ledger holds one expense, paid by the user with id "b" and owed by Ann.  When the user
"b" has no document any more, the populated `paidBy` is `null`, `expense.paidBy._id`
throws and the request fails with a 500 instead of returning balances; when the user
"b" still has a document (and has only left the room) the credit is skipped and the
handler returns Ann's balance of -10. -/
theorem getRoomBalances_dangling_reference :
    getRoomBalancesPopulated usersAnn (some roomA) "a" ledgerPaidByB = .error nullReference ∧
    getRoomBalancesPopulated usersAnnBob (some roomA) "a" ledgerPaidByB =
      .ok ⟨[⟨"a", "Ann", -10⟩], []⟩ := by
  constructor
  · rfl
  · have hres : Resolved usersAnnBob ledgerPaidByB := by
      intro e he
      simp only [ledgerPaidByB, List.mem_singleton] at he
      subst he
      refine ⟨⟨⟨"b", "Bob"⟩, by decide⟩, ?_⟩
      intro s hs
      simp only [expense, split, List.mem_singleton] at hs
      subst hs
      exact ⟨⟨"a", "Ann"⟩, by decide⟩
    rw [getRoomBalancesPopulated_resolved _ _ _ _ hres,
      getRoomBalances_ok roomA "a" ledgerPaidByB (by simp [memberIds, roomA, member])]
    have hb : balanceArray roomA.members ledgerPaidByB = [⟨"a", "Ann", -10⟩] := by
      simp [balanceArray, initBalances, setBalance, processExpense, addToBalance, roomA,
        ledgerPaidByB, member, expense, split]
    simp only [computeBalances, hb]
    norm_num [settleSteps, debtorsOf, creditorsOf, List.filter, settleLoop, toFixed2,
      List.filterMap]

/-! ## deleteRoom -/

theorem deleteRoom_dbAnn :
    deleteRoom dbAnn "a" "r" = (.ok "Room deleted successfully.", ⟨[], [], [dutyAnn]⟩) := rfl

/-- C21, as stated, fails: Ann, the admin and only member of room `r`, deletes the room;
the request succeeds and the duty configuration of room `r` is still in the duty
store. -/
theorem deleteRoom_duty_counterexample :
    (deleteRoom dbAnn "a" "r").1 = .ok "Room deleted successfully." ∧
      ∃ duty ∈ (deleteRoom dbAnn "a" "r").2.duties, duty.roomId = "r" := by
  rw [deleteRoom_dbAnn]
  exact ⟨rfl, dutyAnn, List.mem_singleton.2 rfl, rfl⟩

/-- C21, amended: when `deleteRoom` succeeds, the room document is removed from the rooms
collection (no room with the id remains) and nothing else is written: the duty store
and the ledger are as they were, so a duty configuration stored for the room remains. -/
theorem deleteRoom_store (db : Database) (requester : String) (roomId : String)
    (message : String) (h : (deleteRoom db requester roomId).1 = .ok message) :
    (deleteRoom db requester roomId).2.rooms =
        db.rooms.filter (fun stored => stored._id ≠ roomId) ∧
      (∀ stored ∈ (deleteRoom db requester roomId).2.rooms, stored._id ≠ roomId) ∧
      (deleteRoom db requester roomId).2.duties = db.duties ∧
      (deleteRoom db requester roomId).2.expenses = db.expenses := by
  unfold deleteRoom at h ⊢
  cases hf : db.rooms.find? (fun room => decide (room._id = roomId)) with
  | none => rw [hf] at h; simp at h
  | some room =>
    have hid : room._id = roomId := by simpa using List.find?_some hf
    rw [hf] at h
    simp only at h ⊢
    split_ifs at h ⊢ with h1 h2 h3
    rw [hid]
    refine ⟨rfl, ?_, rfl, rfl⟩
    intro stored hs
    simpa using (List.mem_filter.1 hs).2

/-- Witness of the amended C21: Ann deletes room `r` of `dbAnn`. -/
theorem deleteRoom_store_witness :
    (deleteRoom dbAnn "a" "r").1 = .ok "Room deleted successfully." ∧
    ((deleteRoom dbAnn "a" "r").2.rooms =
        dbAnn.rooms.filter (fun stored => stored._id ≠ "r") ∧
      (∀ stored ∈ (deleteRoom dbAnn "a" "r").2.rooms, stored._id ≠ "r") ∧
      (deleteRoom dbAnn "a" "r").2.duties = dbAnn.duties ∧
      (deleteRoom dbAnn "a" "r").2.expenses = dbAnn.expenses) :=
  ⟨rfl, deleteRoom_store dbAnn "a" "r" "Room deleted successfully." rfl⟩

/-! ## The skip set -/

/-- C23 fails on the code: a tick on a configuration with three members in the order,
two duties and Bob in the skip set rotates the assignments and moves the cursor, and
leaves the skip set as it was; in general the tick never changes the skip set. -/
theorem incrementDutyIndex_keeps_skipped :
    dutySkipB.memberOrder ≠ [] ∧ dutySkipB.duties ≠ [] ∧
      incrementDutyIndex dutySkipB =
        ⟨"r", [⟨"d1", some "b"⟩, ⟨"d2", some "c"⟩], ["a", "b", "c"], 1, ["b"]⟩ ∧
      (incrementDutyIndex dutySkipB).skippedMembersForCurrentCycle ≠ [] ∧
      ∀ duty : Duty, (incrementDutyIndex duty).skippedMembersForCurrentCycle =
        duty.skippedMembersForCurrentCycle := by
  refine ⟨by decide, by decide, by decide, by decide, ?_⟩
  intro duty
  unfold incrementDutyIndex
  cases rotation duty <;> rfl

/-! ## Empty split lists -/

theorem toFixed2_neg {x : ℚ} (h : x < -(1 / 100)) : toFixed2 x ≤ -(1 / 100) := by
  unfold toFixed2
  have hx : x < 0 := by linarith
  rw [if_pos hx]
  have h1 : (1 : ℤ) ≤ ⌊(-x) * 100 + 1 / 2⌋ := by
    rw [Int.le_floor]
    push_cast
    linarith
  have h2 : ((1 : ℤ) : ℚ) ≤ ((⌊(-x) * 100 + 1 / 2⌋ : ℤ) : ℚ) := by exact_mod_cast h1
  push_cast at h2
  linarith

/-- The debtor and the creditor of every step are entries of the two lists the loop
started from, with the amounts the loop has reduced so far. -/
theorem settleLoop_origin (fuel : Nat) (ds cs : List Balance) (hd : AllNeg ds)
    (hc : AllPos cs) :
    ∀ s ∈ settleLoop fuel ds cs,
      (∃ d ∈ ds, d._id = s.debtor._id ∧ d.name = s.debtor.name ∧
        d.amount ≤ s.debtor.amount) ∧
      (∃ c ∈ cs, c._id = s.creditor._id ∧ c.name = s.creditor.name ∧
        s.creditor.amount ≤ c.amount) := by
  induction fuel generalizing ds cs with
  | zero => simp [settleLoop]
  | succ n ih =>
    cases ds with
    | nil => simp [settleLoop]
    | cons d ds =>
      cases cs with
      | nil => simp [settleLoop]
      | cons c cs =>
        have hd0 := hd d (List.mem_cons_self _ _)
        have hc0 := hc c (List.mem_cons_self _ _)
        have hf := amountToSettle_facts hd0 hc0
        intro s hs
        simp only [settleLoop, List.mem_cons] at hs
        rcases hs with rfl | hs
        · exact ⟨⟨d, List.mem_cons_self _ _, rfl, rfl, le_refl _⟩,
            ⟨c, List.mem_cons_self _ _, rfl, rfl, le_refl _⟩⟩
        · obtain ⟨⟨d1, hd1, e1, e2, e3⟩, ⟨c1, hc1, f1, f2, f3⟩⟩ :=
            ih _ _ (allNeg_debtorsAfter hd hc0) (allPos_creditorsAfter hc) s hs
          constructor
          · unfold debtorsAfter at hd1
            split_ifs at hd1
            · exact ⟨d1, List.mem_cons_of_mem _ hd1, e1, e2, e3⟩
            · rcases List.mem_cons.1 hd1 with rfl | hd1
              · exact ⟨d, List.mem_cons_self _ _, e1, e2, by
                  simp only at e3
                  linarith [hf.1]⟩
              · exact ⟨d1, List.mem_cons_of_mem _ hd1, e1, e2, e3⟩
          · unfold creditorsAfter at hc1
            split_ifs at hc1
            · exact ⟨c1, List.mem_cons_of_mem _ hc1, f1, f2, f3⟩
            · rcases List.mem_cons.1 hc1 with rfl | hc1
              · exact ⟨c, List.mem_cons_self _ _, f1, f2, by
                  simp only at f3
                  linarith [hf.1]⟩
              · exact ⟨c1, List.mem_cons_of_mem _ hc1, f1, f2, f3⟩

/-- The debtor of a step is an entry of `balanceArray` with a negative amount, the
creditor one with a positive amount; they are entries of different members. -/
theorem step_parties (members : List RoomMember) (expenses : List Expense) (s : Step)
    (hs : s ∈ settleSteps (balanceArray members expenses)) :
    ∃ d ∈ balanceArray members expenses, ∃ c ∈ balanceArray members expenses,
      d._id = s.debtor._id ∧ d.name = s.debtor.name ∧ d.amount ≤ s.debtor.amount ∧
      s.debtor.amount < 0 ∧
      c._id = s.creditor._id ∧ c.name = s.creditor.name ∧ s.creditor.amount ≤ c.amount ∧
      0 < s.creditor.amount ∧
      d._id ∈ memberIds members ∧ c._id ∈ memberIds members := by
  obtain ⟨⟨d, hd, e1, e2, e3⟩, ⟨c, hc, f1, f2, f3⟩⟩ :=
    settleLoop_origin _ _ _ (allNeg_debtorsOf _) (allPos_creditorsOf _) s hs
  obtain ⟨g1, g2, _⟩ :=
    settleLoop_step _ _ _ (allNeg_debtorsOf _) (allPos_creditorsOf _) s hs
  have hdm := (mem_debtorsOf.1 hd).1
  have hcm := (mem_creditorsOf.1 hc).1
  have hkey : ∀ b ∈ balanceArray members expenses, b._id ∈ memberIds members := by
    intro b hb
    rw [← mem_keys_initBalances, ← keys_balanceArray members expenses]
    exact List.mem_map_of_mem _ hb
  exact ⟨d, hdm, c, hcm, e1, e2, e3, g1, f1, f2, f3, g2, hkey d hdm, hkey c hcm⟩

/-- C25: every triple of `simplifiedDebts` is recorded by an iteration whose debtor is a
room member with a negative entry in `rawBalances`, named by `from`, and whose creditor
is a room member with a positive entry in `rawBalances`, named by `to`; the two are
different members, and the member who pays in one triple is never the member who is
paid in another (or the same) triple.  Members are told apart by id; the triple carries
their names. -/
theorem simplifiedDebts_parties (room : Room) (requester : String) (expenses : List Expense)
    (response : BalancesResponse)
    (h : getRoomBalances (some room) requester expenses = .ok response) :
    (∀ t ∈ response.simplifiedDebts,
      ∃ s ∈ settleSteps (balanceArray room.members expenses), s.recorded = some t ∧
        ∃ payer ∈ response.rawBalances, ∃ payee ∈ response.rawBalances,
          payer._id = s.debtor._id ∧ payer.name = t.from_ ∧ payer.amount < 0 ∧
          payee._id = s.creditor._id ∧ payee.name = t.to_ ∧ 0 < payee.amount ∧
          payer._id ∈ memberIds room.members ∧ payee._id ∈ memberIds room.members ∧
          payer._id ≠ payee._id) ∧
    (∀ s1 ∈ settleSteps (balanceArray room.members expenses),
      ∀ s2 ∈ settleSteps (balanceArray room.members expenses),
        s1.debtor._id ≠ s2.creditor._id) := by
  have hresp : response = computeBalances room.members expenses := by
    unfold getRoomBalances at h
    simp only at h
    split_ifs at h
    cases h
    rfl
  have hn : (keys (balanceArray room.members expenses)).Nodup := by
    rw [keys_balanceArray]
    exact keys_initBalances_nodup _
  have hdiff : ∀ s1 ∈ settleSteps (balanceArray room.members expenses),
      ∀ s2 ∈ settleSteps (balanceArray room.members expenses),
        s1.debtor._id ≠ s2.creditor._id := by
    intro s1 h1 s2 h2 heq
    obtain ⟨d, hd, _, _, e1, _, e3, e4, _, _, _, _, _, _⟩ :=
      step_parties room.members expenses s1 h1
    obtain ⟨_, _, c, hc, _, _, _, _, f1, _, f3, f4, _, _⟩ :=
      step_parties room.members expenses s2 h2
    have hd2 := amountAt_of_mem hn hd
    have hc2 := amountAt_of_mem hn hc
    rw [e1, heq, ← f1, hc2] at hd2
    linarith
  refine ⟨?_, hdiff⟩
  intro t ht
  rw [hresp] at ht
  obtain ⟨s, hs, hrec⟩ := mem_simplifiedDebts _ _ t ht
  refine ⟨s, hs, hrec, ?_⟩
  obtain ⟨d, hd, c, hc, e1, e2, e3, e4, f1, f2, f3, f4, hdm, hcm⟩ :=
    step_parties room.members expenses s hs
  obtain ⟨_, _, hats⟩ :=
    settleLoop_step _ _ _ (allNeg_debtorsOf _) (allPos_creditorsOf _) s hs
  have hlt : 1 / 100 < s.amountToSettle := by
    by_contra hcon
    rw [recorded_of_not_lt hcon] at hrec
    exact Option.noConfusion hrec
  rw [recorded_of_lt hlt] at hrec
  have ht2 := Option.some.inj hrec
  have hdl : 1 / 100 < |s.debtor.amount| := by
    rw [hats] at hlt
    exact lt_of_lt_of_le hlt (min_le_left _ _)
  have hcl : 1 / 100 < s.creditor.amount := by
    rw [hats] at hlt
    exact lt_of_lt_of_le hlt (min_le_right _ _)
  rw [abs_of_neg e4] at hdl
  rw [hresp]
  refine ⟨{ d with amount := toFixed2 d.amount }, ?_, { c with amount := toFixed2 c.amount },
    ?_, e1, ?_, ?_, f1, ?_, ?_, hdm, hcm, ?_⟩
  · simp only [computeBalances, List.mem_map]
    exact ⟨d, hd, rfl⟩
  · simp only [computeBalances, List.mem_map]
    exact ⟨c, hc, rfl⟩
  · rw [← ht2]; exact e2
  · have := @toFixed2_neg d.amount (by linarith)
    simp only
    linarith
  · rw [← ht2]; exact f2
  · have := @toFixed2_pos c.amount (by linarith)
    simp only
    linarith
  · show d._id ≠ c._id
    rw [e1, f1]
    exact hdiff s hs s hs

/-- Witness of C25: two members called Sam, one owing the other 10; the triple names
both parties Sam, and they are the members `b` and `a`. -/
theorem simplifiedDebts_parties_witness :
    getRoomBalances (some roomSam) "a" ledgerSam =
      .ok (computeBalances roomSam.members ledgerSam) ∧
    ((∀ t ∈ (computeBalances roomSam.members ledgerSam).simplifiedDebts,
      ∃ s ∈ settleSteps (balanceArray roomSam.members ledgerSam), s.recorded = some t ∧
        ∃ payer ∈ (computeBalances roomSam.members ledgerSam).rawBalances,
        ∃ payee ∈ (computeBalances roomSam.members ledgerSam).rawBalances,
          payer._id = s.debtor._id ∧ payer.name = t.from_ ∧ payer.amount < 0 ∧
          payee._id = s.creditor._id ∧ payee.name = t.to_ ∧ 0 < payee.amount ∧
          payer._id ∈ memberIds roomSam.members ∧ payee._id ∈ memberIds roomSam.members ∧
          payer._id ≠ payee._id) ∧
    (∀ s1 ∈ settleSteps (balanceArray roomSam.members ledgerSam),
      ∀ s2 ∈ settleSteps (balanceArray roomSam.members ledgerSam),
        s1.debtor._id ≠ s2.creditor._id)) :=
  ⟨getRoomBalances_ok roomSam "a" ledgerSam (by simp [memberIds, roomSam, member]),
    simplifiedDebts_parties roomSam "a" ledgerSam _
      (getRoomBalances_ok roomSam "a" ledgerSam (by simp [memberIds, roomSam, member]))⟩

/-! ## getRoomBalancesInternal -/

theorem debitSplitsInternal_resolved (users : List User) (splits : List Split)
    (bs : List Balance) (h : ∀ s ∈ splits, ∃ u, populated users s.user = some u) :
    debitSplitsInternal users bs splits =
      splits.foldl (fun acc split => addToBalance acc split.user (-split.amount)) bs := by
  unfold debitSplitsInternal
  induction splits generalizing bs with
  | nil => rfl
  | cons s ss ih =>
    obtain ⟨u, hu⟩ := h s (List.mem_cons_self _ _)
    simp only [List.foldl_cons, hu]
    rw [populated_id hu]
    exact ih _ (fun x hx => h x (List.mem_cons_of_mem _ hx))

theorem processLedgerInternal_resolved (users : List User) (expenses : List Expense)
    (bs : List Balance) (h : Resolved users expenses) :
    processLedgerInternal users bs expenses = expenses.foldl processExpense bs := by
  unfold processLedgerInternal
  induction expenses generalizing bs with
  | nil => rfl
  | cons e es ih =>
    obtain ⟨⟨u, hu⟩, hs⟩ := h e (List.mem_cons_self _ _)
    simp only [List.foldl_cons, hu]
    rw [populated_id hu, debitSplitsInternal_resolved users e.splits _ hs]
    exact ih _ (fun x hx => h x (List.mem_cons_of_mem _ hx))

/-- On a ledger whose references all resolve, the helper returns the rounded
`balanceArray` of the room, for a requester who is a member. -/
theorem getRoomBalancesInternal_resolved (users : List User) (room : Room)
    (requester : String) (expenses : List Expense) (h : Resolved users expenses)
    (hm : requester ∈ memberIds room.members) :
    getRoomBalancesInternal users (some room) requester expenses =
      .ok (computeBalances room.members expenses).rawBalances := by
  have : (room.members.any (fun member => decide (member.user._id = requester))) = true := by
    simp only [memberIds, List.mem_map] at hm
    rcases hm with ⟨m, hm, rfl⟩
    simp only [List.any_eq_true]
    exact ⟨m, hm, by simp⟩
  unfold getRoomBalancesInternal
  simp only [this, if_true]
  rw [processLedgerInternal_resolved users expenses _ h]
  rfl

/-- C26: for every room and every ledger in which the payer of every expense and the user
of every split is present, `getRoomBalancesInternal` returns a `rawBalances` exactly when
`getRoomBalances` responds with balances (the room exists and the requester is one of
its members), and the two lists are equal, entry for entry. -/
theorem getRoomBalancesInternal_rawBalances (users : List User) (room : Option Room)
    (requester : String) (expenses : List Expense) (h : Resolved users expenses) :
    (∀ rawBalances, getRoomBalancesInternal users room requester expenses = .ok rawBalances ↔
      ∃ response, getRoomBalancesPopulated users room requester expenses = .ok response ∧
        response.rawBalances = rawBalances) ∧
    (∀ r, room = some r → requester ∈ memberIds r.members →
      ∃ response, getRoomBalancesPopulated users room requester expenses = .ok response ∧
        getRoomBalancesInternal users room requester expenses = .ok response.rawBalances) := by
  rw [getRoomBalancesPopulated_resolved users room requester expenses h]
  constructor
  · intro rawBalances
    cases room with
    | none => simp [getRoomBalancesInternal, getRoomBalances]
    | some r =>
      by_cases hm : requester ∈ memberIds r.members
      · rw [getRoomBalancesInternal_resolved users r requester expenses h hm,
          getRoomBalances_ok r requester expenses hm]
        constructor
        · intro h1
          exact ⟨_, rfl, Except.ok.inj h1⟩
        · rintro ⟨response, h1, h2⟩
          rw [← h2, ← Except.ok.inj h1]
      · have : ¬ (r.members.any (fun member => decide (member.user._id = requester))) = true := by
          intro h0
          simp only [List.any_eq_true, decide_eq_true_eq] at h0
          obtain ⟨m, hm1, hm2⟩ := h0
          exact hm (by simp only [memberIds, List.mem_map]; exact ⟨m, hm1, hm2⟩)
        simp [getRoomBalancesInternal, getRoomBalances, this]
  · rintro r rfl hm
    exact ⟨_, getRoomBalances_ok r requester expenses hm,
      getRoomBalancesInternal_resolved users r requester expenses h hm⟩

theorem resolved_ledgerPaidByB : Resolved usersAnnBob ledgerPaidByB := by
  intro e he
  simp only [ledgerPaidByB, List.mem_singleton] at he
  subst he
  refine ⟨⟨⟨"b", "Bob"⟩, by decide⟩, ?_⟩
  intro s hs
  simp only [expense, split, List.mem_singleton] at hs
  subst hs
  exact ⟨⟨"a", "Ann"⟩, by decide⟩

/-- Witness of C26: the room of Ann alone, with an expense that Bob (who has a user
document) paid for her. -/
theorem getRoomBalancesInternal_rawBalances_witness :
    Resolved usersAnnBob ledgerPaidByB ∧
    ((∀ rawBalances,
      getRoomBalancesInternal usersAnnBob (some roomA) "a" ledgerPaidByB = .ok rawBalances ↔
      ∃ response,
        getRoomBalancesPopulated usersAnnBob (some roomA) "a" ledgerPaidByB = .ok response ∧
        response.rawBalances = rawBalances) ∧
    (∀ r, some roomA = some r → "a" ∈ memberIds r.members →
      ∃ response,
        getRoomBalancesPopulated usersAnnBob (some roomA) "a" ledgerPaidByB = .ok response ∧
        getRoomBalancesInternal usersAnnBob (some roomA) "a" ledgerPaidByB =
          .ok response.rawBalances)) :=
  ⟨resolved_ledgerPaidByB,
    getRoomBalancesInternal_rawBalances usersAnnBob (some roomA) "a" ledgerPaidByB
      resolved_ledgerPaidByB⟩

/-! ## Duplicate ids in the member order -/

theorem createOrUpdateDuties_bodyAA :
    createOrUpdateDuties (some roomA) none "r" bodyAA =
      .ok ⟨"r", [⟨"d1", some "a"⟩, ⟨"d2", some "a"⟩], ["a", "a"], 0, []⟩ := rfl

/-- C27, as stated, fails: an admin configures two duties over a member order that lists
Ann twice; the request succeeds, and in the stored configuration and after every number
of ticks both slots are assigned to Ann. -/
theorem assignee_duplicate_counterexample :
    ∃ cfg, createOrUpdateDuties (some roomA) none "r" bodyAA = .ok cfg ∧
      ∀ k, assignee (incrementDutyIndex^[k] cfg) 0 = some "a" ∧
        assignee (incrementDutyIndex^[k] cfg) 1 = some "a" := by
  refine ⟨_, createOrUpdateDuties_bodyAA, ?_⟩
  intro k
  obtain ⟨hrot, hm, hd, _⟩ := fresh_eq_rotated createOrUpdateDuties_bodyAA
    (by simp [memberIds, roomA, member])
  have hiter := iterate_rotated _ hm hd 0 k
  rw [← hrot, Nat.zero_add] at hiter
  rw [hiter]
  have h2 : ∀ p, (["a", "a"] : List String)[p % 2]? = some "a" := by
    intro p
    have : p % 2 = 0 ∨ p % 2 = 1 := by omega
    rcases this with h | h <;> rw [h] <;> rfl
  constructor
  · simp only [assignee, rotated, List.getElem?_mapIdx, List.length_cons, List.length_nil]
    simpa using h2 (k + 0)
  · simp only [assignee, rotated, List.getElem?_mapIdx, List.length_cons, List.length_nil]
    simpa using h2 (k + 1)

/-- C27, amended: after a successful `createOrUpdateDuties` whose member order lists no id
twice, and any number of subsequent rotation ticks, every slot is assigned and no member
is assigned to two different slots.  (Member ids are not empty.) -/
theorem assignee_distinct (room : Room) (existing : Option Duty) (roomId : String)
    (body : ConfigureBody) (cfg : Duty)
    (h : createOrUpdateDuties (some room) existing roomId body = .ok cfg)
    (hid : "" ∉ memberIds room.members) (hn : cfg.memberOrder.Nodup) (k i j : Nat)
    (hi : i < cfg.duties.length) (hj : j < cfg.duties.length) (hij : i ≠ j) :
    ∃ mi mj, assignee (incrementDutyIndex^[k] cfg) i = some mi ∧
      assignee (incrementDutyIndex^[k] cfg) j = some mj ∧ mi ≠ mj := by
  obtain ⟨hrot, hm, hd, hle⟩ := fresh_eq_rotated h hid
  have hpos : 0 < cfg.memberOrder.length := List.length_pos.2 hm
  have hiter := iterate_rotated cfg hm hd 0 k
  rw [← hrot, Nat.zero_add] at hiter
  rw [hiter]
  have hli : (k + i) % cfg.memberOrder.length < cfg.memberOrder.length := Nat.mod_lt _ hpos
  have hlj : (k + j) % cfg.memberOrder.length < cfg.memberOrder.length := Nat.mod_lt _ hpos
  refine ⟨cfg.memberOrder[(k + i) % cfg.memberOrder.length],
    cfg.memberOrder[(k + j) % cfg.memberOrder.length], ?_, ?_, ?_⟩
  · simp only [assignee, rotated, List.getElem?_mapIdx, List.getElem?_eq_getElem hi,
      Option.map_some', Option.some_bind, List.getElem?_eq_getElem hli]
  · simp only [assignee, rotated, List.getElem?_mapIdx, List.getElem?_eq_getElem hj,
      Option.map_some', Option.some_bind, List.getElem?_eq_getElem hlj]
  · intro heq
    have := (List.Nodup.getElem_inj_iff hn).1 heq
    exact hij (add_mod_injective (by omega) (by omega) this)

/-- Witness of the amended C27: two duties over Ann, Bob and Cy after five ticks. -/
theorem assignee_distinct_witness :
    (createOrUpdateDuties (some roomThree) none "r" bodyABC = .ok dutyABC ∧
      "" ∉ memberIds roomThree.members ∧ dutyABC.memberOrder.Nodup ∧
      0 < dutyABC.duties.length ∧ 1 < dutyABC.duties.length ∧ 0 ≠ 1) ∧
    ∃ mi mj, assignee (incrementDutyIndex^[5] dutyABC) 0 = some mi ∧
      assignee (incrementDutyIndex^[5] dutyABC) 1 = some mj ∧ mi ≠ mj :=
  ⟨⟨createOrUpdateDuties_bodyABC, no_empty_id_roomThree, by decide, by decide, by decide,
      by decide⟩,
    assignee_distinct roomThree none "r" bodyABC dutyABC createOrUpdateDuties_bodyABC
      no_empty_id_roomThree (by decide) 5 0 1 (by decide) (by decide) (by decide)⟩
/-! ## Admins of a room -/

theorem any_admin_iff (members : List RoomMember) (id : String) :
    members.any (fun m => decide (m.user._id = id ∧ m.role = "admin")) = true ↔
      ∃ m ∈ members, m.user._id = id ∧ m.role = "admin" := by
  simp [List.any_eq_true]

/-- Among members with pairwise distinct ids, an admin who is not the only admin has
another admin beside. -/
theorem admin_other {members : List RoomMember} (hn : (memberIds members).Nodup)
    {m : RoomMember} (hm : m ∈ members) (hr : m.role = "admin")
    (hc : (members.filter (fun m => m.role = "admin")).length ≠ 1) :
    ∃ m2 ∈ members, m2.role = "admin" ∧ m2.user._id ≠ m.user._id := by
  have hml : m ∈ members.filter (fun m => m.role = "admin") :=
    List.mem_filter.2 ⟨hm, by simpa using hr⟩
  have hsub : (members.filter (fun m => decide (m.role = "admin"))).Sublist members :=
    List.filter_sublist _
  have hnl : ((members.filter (fun m => m.role = "admin")).map (fun m => m.user._id)).Nodup :=
    List.Nodup.sublist (hsub.map _) hn
  have hmem : ∀ x ∈ members.filter (fun m => m.role = "admin"),
      x ∈ members ∧ x.role = "admin" := by
    intro x hx
    have := List.mem_filter.1 hx
    exact ⟨this.1, by simpa using this.2⟩
  generalize members.filter (fun m => decide (m.role = "admin")) = l at hml hnl hmem hc
  match l, hml, hnl, hmem, hc with
  | [], hml, _, _, _ => simp at hml
  | [x], _, _, _, hc => simp at hc
  | x :: y :: rest, _, hnl, hmem, _ =>
    simp only [List.map_cons, List.nodup_cons, List.mem_cons, not_or] at hnl
    by_cases hx : x.user._id = m.user._id
    · refine ⟨y, (hmem y (by simp)).1, (hmem y (by simp)).2, ?_⟩
      intro hy
      exact hnl.1.1 (hx.trans hy.symm)
    · exact ⟨x, (hmem x (by simp)).1, (hmem x (by simp)).2, hx⟩

theorem memberIds_filter_nodup {members : List RoomMember} (hn : (memberIds members).Nodup)
    (p : RoomMember → Bool) : (memberIds (members.filter p)).Nodup :=
  List.Nodup.sublist ((List.filter_sublist _).map _) hn

theorem memberIds_setRole (ms : List RoomMember) (userId newRole : String) :
    memberIds (setRole ms userId newRole) = memberIds ms := by
  induction ms with
  | nil => rfl
  | cons m ms ih =>
    unfold setRole
    split_ifs
    · rfl
    · simp only [memberIds, List.map_cons] at ih ⊢
      rw [ih]

theorem mem_setRole_of_ne {ms : List RoomMember} {m : RoomMember} {userId newRole : String}
    (hm : m ∈ ms) (hne : m.user._id ≠ userId) : m ∈ setRole ms userId newRole := by
  induction ms with
  | nil => simp at hm
  | cons x xs ih =>
    unfold setRole
    rcases List.mem_cons.1 hm with rfl | hm
    · rw [if_neg hne]
      exact List.mem_cons_self _ _
    · split_ifs
      · exact List.mem_cons_of_mem _ hm
      · exact List.mem_cons_of_mem _ (ih hm)

theorem setRole_admin {ms : List RoomMember} {userId : String}
    (h : ∃ m ∈ ms, m.user._id = userId) :
    ∃ m ∈ setRole ms userId "admin", m.role = "admin" := by
  induction ms with
  | nil => simp at h
  | cons x xs ih =>
    unfold setRole
    split_ifs with hx
    · exact ⟨_, List.mem_cons_self _ _, rfl⟩
    · obtain ⟨m, hm, hid⟩ := h
      rcases List.mem_cons.1 hm with rfl | hm
      · exact absurd hid hx
      · obtain ⟨m2, hm2, hr⟩ := ih ⟨m, hm, hid⟩
        exact ⟨m2, List.mem_cons_of_mem _ hm2, hr⟩

/-- What a successful `leaveRoom` saves: the requester was a member, was not the only
admin, and is filtered out. -/
theorem leaveRoom_ok {users : List User} {room : Room} {requester : String}
    {expenses : List Expense} {saved : Room}
    (h : leaveRoom users (some room) requester expenses = .ok saved) :
    saved = ⟨room.members.filter (fun member => member.user._id ≠ requester)⟩ ∧
      ¬ ((∃ m ∈ room.members, m.user._id = requester ∧ m.role = "admin") ∧
        (room.members.filter (fun m => m.role = "admin")).length = 1) := by
  unfold leaveRoom at h
  simp only at h
  split_ifs at h with h1 h2
  rw [any_admin_iff] at h2
  refine ⟨?_, h2⟩
  cases hb : getRoomBalancesInternal users (some room) requester expenses with
  | error e => rw [hb] at h; simp at h
  | ok rawBalances =>
    rw [hb] at h
    simp only at h
    split_ifs at h
    exact (Except.ok.inj h).symm

/-- What a successful `removeMemberFromRoom` saves: the requester is an admin, is not
removed as the only admin, and the member with the id is filtered out. -/
theorem removeMemberFromRoom_ok {users : List User} {room : Room} {requester userId : String}
    {expenses : List Expense} {saved : Room}
    (h : removeMemberFromRoom users (some room) requester userId expenses = .ok saved) :
    saved = ⟨room.members.filter (fun member => member.user._id ≠ userId)⟩ ∧
      (∃ m ∈ room.members, m.user._id = requester ∧ m.role = "admin") ∧
      ¬ (userId = requester ∧
        (room.members.filter (fun m => m.role = "admin")).length = 1) := by
  unfold removeMemberFromRoom at h
  simp only at h
  split_ifs at h with h1
  rw [any_admin_iff] at h1
  cases hf : room.members.find? (fun m => decide (m.user._id = userId)) with
  | none => rw [hf] at h; simp at h
  | some memberToRemove =>
    have hid : memberToRemove.user._id = userId := by simpa using List.find?_some hf
    rw [hf] at h
    simp only at h
    split_ifs at h with h2
    rw [hid] at h2
    refine ⟨?_, h1, h2⟩
    cases hb : getRoomBalancesInternal users (some room) requester expenses with
    | error e => rw [hb] at h; simp at h
    | ok rawBalances =>
      rw [hb] at h
      simp only at h
      split_ifs at h
      exact (Except.ok.inj h).symm

/-- What a successful `changeMemberRole` saves: the requester is an admin, the new role
is one of the two roles, the member exists, and the requester does not demote
themselves as the only admin. -/
theorem changeMemberRole_ok {room : Room} {requester userId newRole : String} {saved : Room}
    (h : changeMemberRole (some room) requester userId newRole = .ok saved) :
    saved = ⟨setRole room.members userId newRole⟩ ∧
      (newRole = "user" ∨ newRole = "admin") ∧
      (∃ m ∈ room.members, m.user._id = requester ∧ m.role = "admin") ∧
      (∃ m ∈ room.members, m.user._id = userId) ∧
      ¬ (userId = requester ∧ newRole = "user" ∧
        (room.members.filter (fun m => m.role = "admin")).length = 1) := by
  unfold changeMemberRole at h
  split_ifs at h with h0
  simp only at h
  split_ifs at h with h1
  rw [any_admin_iff] at h1
  cases hf : room.members.find? (fun m => decide (m.user._id = userId)) with
  | none => rw [hf] at h; simp at h
  | some memberToUpdate =>
    have hid : memberToUpdate.user._id = userId := by simpa using List.find?_some hf
    have hmem : memberToUpdate ∈ room.members := List.mem_of_find?_eq_some hf
    rw [hf] at h
    simp only at h
    split_ifs at h with h2
    rw [hid] at h2
    exact ⟨(Except.ok.inj h).symm, h0, h1, ⟨_, hmem, hid⟩, h2⟩

/-- C28: a room whose member ids are unique and that has at least one admin still has at
least one admin, and unique member ids, after any successful `leaveRoom`,
`removeMemberFromRoom` or `changeMemberRole` (the last two succeed only for a requester
who is an admin of the room). -/
theorem admin_remains (users : List User) (room : Room) (requester userId newRole : String)
    (expenses : List Expense) (hn : (memberIds room.members).Nodup) (ha : HasAdmin room) :
    (∀ saved, leaveRoom users (some room) requester expenses = .ok saved →
      HasAdmin saved ∧ (memberIds saved.members).Nodup) ∧
    (∀ saved, removeMemberFromRoom users (some room) requester userId expenses = .ok saved →
      HasAdmin saved ∧ (memberIds saved.members).Nodup ∧
        ∃ m ∈ room.members, m.user._id = requester ∧ m.role = "admin") ∧
    (∀ saved, changeMemberRole (some room) requester userId newRole = .ok saved →
      HasAdmin saved ∧ (memberIds saved.members).Nodup ∧
        ∃ m ∈ room.members, m.user._id = requester ∧ m.role = "admin") := by
  have keep : ∀ (id : String) (m : RoomMember), m ∈ room.members → m.role = "admin" →
      m.user._id ≠ id →
      HasAdmin ⟨room.members.filter (fun member => member.user._id ≠ id)⟩ := by
    intro id m hm hr hne
    exact ⟨m, List.mem_filter.2 ⟨hm, by simpa using hne⟩, hr⟩
  refine ⟨?_, ?_, ?_⟩
  · intro saved h
    obtain ⟨rfl, h2⟩ := leaveRoom_ok h
    refine ⟨?_, memberIds_filter_nodup hn _⟩
    obtain ⟨m, hm, hr⟩ := ha
    by_cases hid : m.user._id = requester
    · have hc : (room.members.filter (fun m => m.role = "admin")).length ≠ 1 :=
        fun hc => h2 ⟨⟨m, hm, hid, hr⟩, hc⟩
      obtain ⟨m2, hm2, hr2, hne⟩ := admin_other hn hm hr hc
      exact keep requester m2 hm2 hr2 (by rw [← hid]; exact hne)
    · exact keep requester m hm hr hid
  · intro saved h
    obtain ⟨rfl, ⟨m, hm, hid, hr⟩, h2⟩ := removeMemberFromRoom_ok h
    refine ⟨?_, memberIds_filter_nodup hn _, m, hm, hid, hr⟩
    by_cases hu : userId = requester
    · have hc : (room.members.filter (fun m => m.role = "admin")).length ≠ 1 :=
        fun hc => h2 ⟨hu, hc⟩
      obtain ⟨m2, hm2, hr2, hne⟩ := admin_other hn hm hr hc
      exact keep userId m2 hm2 hr2 (by rw [hu, ← hid]; exact hne)
    · exact keep userId m hm hr (by rw [hid]; exact fun h0 => hu h0.symm)
  · intro saved h
    obtain ⟨rfl, h0, ⟨m, hm, hid, hr⟩, hex, h2⟩ := changeMemberRole_ok h
    refine ⟨?_, by rw [memberIds_setRole]; exact hn, m, hm, hid, hr⟩
    rcases h0 with h0 | h0
    · by_cases hu : userId = requester
      · have hc : (room.members.filter (fun m => m.role = "admin")).length ≠ 1 :=
          fun hc => h2 ⟨hu, h0, hc⟩
        obtain ⟨m2, hm2, hr2, hne⟩ := admin_other hn hm hr hc
        exact ⟨m2, mem_setRole_of_ne hm2 (by rw [hu, ← hid]; exact hne), hr2⟩
      · exact ⟨m, mem_setRole_of_ne hm (by rw [hid]; exact fun h0 => hu h0.symm), hr⟩
    · subst h0
      exact setRole_admin hex

theorem getRoomBalancesInternal_roomAdmins :
    getRoomBalancesInternal usersABC (some roomAdmins) "a" [] =
      .ok [⟨"a", "Ann", 0⟩, ⟨"b", "Bob", 0⟩, ⟨"c", "Cy", 0⟩] := by
  simp [getRoomBalancesInternal, roomAdmins, admin, member, processLedgerInternal,
    initBalances, setBalance]
  norm_num [toFixed2]

theorem leaveRoom_roomAdmins :
    leaveRoom usersABC (some roomAdmins) "a" [] =
      .ok ⟨[admin "b" "Bob", member "c" "Cy"]⟩ := by
  simp only [leaveRoom, getRoomBalancesInternal_roomAdmins]
  simp [roomAdmins, admin, member]

theorem removeMemberFromRoom_roomAdmins :
    removeMemberFromRoom usersABC (some roomAdmins) "a" "b" [] =
      .ok ⟨[admin "a" "Ann", member "c" "Cy"]⟩ := by
  simp only [removeMemberFromRoom, getRoomBalancesInternal_roomAdmins]
  simp [roomAdmins, admin, member]

theorem changeMemberRole_roomAdmins :
    changeMemberRole (some roomAdmins) "a" "b" "user" =
      .ok ⟨[admin "a" "Ann", member "b" "Bob", member "c" "Cy"]⟩ := rfl

/-- Witness of C28: in the room of the admins Ann and Bob and the member Cy, Ann leaves,
Ann removes Bob, and Ann demotes Bob; each request succeeds and leaves an admin. -/
theorem admin_remains_witness :
    ((memberIds roomAdmins.members).Nodup ∧ HasAdmin roomAdmins) ∧
    (leaveRoom usersABC (some roomAdmins) "a" [] =
        .ok ⟨[admin "b" "Bob", member "c" "Cy"]⟩ ∧
      removeMemberFromRoom usersABC (some roomAdmins) "a" "b" [] =
        .ok ⟨[admin "a" "Ann", member "c" "Cy"]⟩ ∧
      changeMemberRole (some roomAdmins) "a" "b" "user" =
        .ok ⟨[admin "a" "Ann", member "b" "Bob", member "c" "Cy"]⟩) ∧
    ((∀ saved, leaveRoom usersABC (some roomAdmins) "a" [] = .ok saved →
      HasAdmin saved ∧ (memberIds saved.members).Nodup) ∧
    (∀ saved, removeMemberFromRoom usersABC (some roomAdmins) "a" "b" [] = .ok saved →
      HasAdmin saved ∧ (memberIds saved.members).Nodup ∧
        ∃ m ∈ roomAdmins.members, m.user._id = "a" ∧ m.role = "admin") ∧
    (∀ saved, changeMemberRole (some roomAdmins) "a" "b" "user" = .ok saved →
      HasAdmin saved ∧ (memberIds saved.members).Nodup ∧
        ∃ m ∈ roomAdmins.members, m.user._id = "a" ∧ m.role = "admin")) :=
  ⟨⟨by decide, admin "a" "Ann", by decide, rfl⟩,
    ⟨leaveRoom_roomAdmins, removeMemberFromRoom_roomAdmins, changeMemberRole_roomAdmins⟩,
    admin_remains usersABC roomAdmins "a" "b" "user" [] (by decide)
      ⟨admin "a" "Ann", by decide, rfl⟩⟩
/-! ## Rejections write nothing -/

theorem dropWhile_head (p : Char → Bool) (l : List Char) :
    l.dropWhile p = [] ∨ ∃ x t, l.dropWhile p = x :: t ∧ p x = false := by
  induction l with
  | nil => exact Or.inl rfl
  | cons a l ih =>
    cases h : p a with
    | true => simpa [List.dropWhile, h] using ih
    | false => exact Or.inr ⟨a, l, by simp [List.dropWhile, h], h⟩

theorem dropWhile_append_singleton {p : Char → Bool} {x : Char} (hx : p x = false)
    (r : List Char) : ∃ r2, (r ++ [x]).dropWhile p = r2 ++ [x] := by
  induction r with
  | nil => exact ⟨[], by simp [List.dropWhile, hx]⟩
  | cons a r ih =>
    cases h : p a with
    | true => simpa [List.dropWhile, h] using ih
    | false => exact ⟨a :: r, by simp [List.dropWhile, h]⟩

/-- Stripping the leading blanks of a list already stripped at both ends changes
nothing. -/
theorem dropWhile_trimmed (p : Char → Bool) (l : List Char) :
    ((l.dropWhile p).reverse.dropWhile p).reverse.dropWhile p =
      ((l.dropWhile p).reverse.dropWhile p).reverse := by
  rcases dropWhile_head p l with h | ⟨x, t, h, hx⟩
  · rw [h]; rfl
  · rw [h, List.reverse_cons]
    obtain ⟨r2, hr2⟩ := dropWhile_append_singleton hx t.reverse
    rw [hr2]
    simp [List.dropWhile, hx]

/-- Trimming a trimmed string changes nothing. -/
theorem trim_trim (s : String) : trim (trim s) = trim s := by
  unfold trim
  show String.mk (((((s.toList.dropWhile isWhiteSpace).reverse.dropWhile
    isWhiteSpace).reverse.dropWhile isWhiteSpace).reverse.dropWhile isWhiteSpace).reverse) = _
  rw [dropWhile_trimmed, List.reverse_reverse, dropWhile_trimmed]

/-- Saving a stored configuration again stores the same configuration. -/
theorem save_save {doc stored : Duty} (h : Duty.save doc = .ok stored) :
    Duty.save stored = .ok stored := by
  unfold Duty.save at h
  split_ifs at h with h1
  have hs := (Except.ok.inj h).symm
  have hno : ¬ (stored.duties.any (fun d => decide (trim d.description = "")) = true) := by
    intro h2
    apply h1
    rw [hs] at h2
    simp only [List.any_eq_true, List.mem_map, decide_eq_true_eq] at h2 ⊢
    obtain ⟨d, ⟨d0, hd0, rfl⟩, hd⟩ := h2
    exact ⟨d0, hd0, by simpa [trim_trim] using hd⟩
  unfold Duty.save
  rw [if_neg hno]
  congr 1
  rw [hs]
  simp only [List.map_map, Duty.mk.injEq, true_and, and_true]
  apply List.map_congr_left
  intro d _
  simp [trim_trim]

theorem createIn_error {db db1 : Database} {doc : Duty} {e : HttpError}
    (h : Duty.createIn db doc = (.error e, db1)) : db1 = db := by
  unfold Duty.createIn at h
  cases hs : Duty.save doc with
  | error e1 => rw [hs] at h; exact (Prod.mk.inj h).2.symm
  | ok stored => rw [hs] at h; simp at h

theorem createIn_ok {db db1 : Database} {doc stored : Duty}
    (h : Duty.createIn db doc = (.ok stored, db1)) : Duty.save doc = .ok stored := by
  unfold Duty.createIn at h
  cases hs : Duty.save doc with
  | error e1 => rw [hs] at h; simp at h
  | ok s1 =>
    rw [hs] at h
    have := (Prod.mk.inj h).1
    rw [Except.ok.inj this]

theorem saveIn_error {db : Database} {doc : Duty} {e : HttpError}
    (h : (Duty.saveIn db doc).1 = .error e) : (Duty.saveIn db doc).2 = db := by
  unfold Duty.saveIn at h ⊢
  cases hs : Duty.save doc with
  | error e1 => rfl
  | ok stored =>
    rw [hs] at h
    simp only at h
    split_ifs at h

theorem createInExpense_error {db : Database} {doc : Expense} {e : HttpError}
    (h : (Expense.createIn db doc).1 = .error e) : (Expense.createIn db doc).2 = db := by
  unfold Expense.createIn at h ⊢
  cases hs : Expense.create doc with
  | error e1 => rfl
  | ok stored => rw [hs] at h; simp at h

/-- The handler on the store responds as `addExpense` does, and writes the stored expense
when it accepts and nothing when it rejects. -/
theorem addExpenseOn_eq (db : Database) (requester : String) (body : AddExpenseBody) :
    addExpenseOn db requester body =
      match addExpense (Room.findById db body.roomId) requester body with
      | .error e => (.error e, db)
      | .ok stored => (.ok stored, { db with expenses := db.expenses ++ [stored] }) := by
  unfold addExpenseOn addExpense
  cases body.splits with
  | none => rfl
  | some splits =>
    simp only
    by_cases h1 : body.roomId = "" ∨ body.description = "" ∨ body.totalAmount = 0 ∨
        body.paidBy = "" ∨ body.splitType = ""
    · rw [if_pos h1, if_pos h1]
    · rw [if_neg h1, if_neg h1]
      cases Room.findById db body.roomId with
      | none => rfl
      | some room =>
        simp only
        by_cases h2 : ¬ requester ∈ memberIds room.members
        · rw [if_pos h2, if_pos h2]
        · rw [if_neg h2, if_neg h2]
          by_cases h3 : ¬ body.paidBy ∈ memberIds room.members
          · rw [if_pos h3, if_pos h3]
          · rw [if_neg h3, if_neg h3]
            cases splits.find? (fun s => decide (¬ s.user ∈ memberIds room.members)) with
            | some s => rfl
            | none =>
              simp only
              cases processedSplits body.splitType body.totalAmount splits with
              | error e => rfl
              | ok processed =>
                simp only [Expense.createIn]

theorem createOrUpdateDutiesOn_error (db : Database) (roomId : String) (body : ConfigureBody)
    (e : HttpError) (h : (createOrUpdateDutiesOn db roomId body).1 = .error e) :
    (createOrUpdateDutiesOn db roomId body).2 = db := by
  unfold createOrUpdateDutiesOn at h ⊢
  cases hd : body.duties with
  | none => rfl
  | some duties =>
    rw [hd] at h
    simp only at h ⊢
    by_cases h1 : duties.length = 0
    · rw [if_pos h1]
    · rw [if_neg h1] at h ⊢
      cases hmo : body.memberOrder with
      | none => rfl
      | some memberOrder =>
        rw [hmo] at h
        simp only at h ⊢
        by_cases h2 : memberOrder.length = 0
        · rw [if_pos h2]
        · rw [if_neg h2] at h ⊢
          by_cases h3 : memberOrder.length < duties.length
          · rw [if_pos h3]
          · rw [if_neg h3] at h ⊢
            cases hr : Room.findById db roomId with
            | none => rfl
            | some room =>
              rw [hr] at h
              simp only at h ⊢
              by_cases h4 : (memberOrder.filter
                  (fun id => decide (¬ id ∈ memberIds room.members))).length > 0
              · rw [if_pos h4]
              · rw [if_neg h4] at h ⊢
                cases hf : Duty.findOne db roomId with
                | some dutyConfig =>
                  rw [hf] at h
                  exact saveIn_error h
                | none =>
                  rw [hf] at h
                  simp only at h ⊢
                  rcases hc : Duty.createIn db
                    ⟨roomId, dutyDocs duties memberOrder, memberOrder, 0, []⟩ with ⟨res, db1⟩
                  rw [hc] at h
                  cases res with
                  | error e1 => exact createIn_error hc
                  | ok dutyConfig =>
                    simp only at h ⊢
                    have hsave := save_save (createIn_ok hc)
                    unfold Duty.saveIn at h
                    rw [hsave] at h
                    simp only at h
                    split_ifs at h

theorem saveIn_response (db : Database) (doc : Duty) :
    (Duty.saveIn db doc).1 = Duty.save doc := by
  unfold Duty.saveIn
  cases Duty.save doc with
  | error e => rfl
  | ok stored =>
    simp only
    split_ifs <;> rfl

/-- The response of the handler on the store is the response of `createOrUpdateDuties`. -/
theorem createOrUpdateDutiesOn_response (db : Database) (roomId : String)
    (body : ConfigureBody) :
    (createOrUpdateDutiesOn db roomId body).1 =
      createOrUpdateDuties (Room.findById db roomId) (Duty.findOne db roomId) roomId body := by
  unfold createOrUpdateDutiesOn createOrUpdateDuties
  cases body.duties with
  | none => rfl
  | some duties =>
    simp only
    by_cases h1 : duties.length = 0
    · rw [if_pos h1, if_pos h1]
    · rw [if_neg h1, if_neg h1]
      cases body.memberOrder with
      | none => rfl
      | some memberOrder =>
        simp only
        by_cases h2 : memberOrder.length = 0
        · rw [if_pos h2, if_pos h2]
        · rw [if_neg h2, if_neg h2]
          by_cases h3 : memberOrder.length < duties.length
          · rw [if_pos h3, if_pos h3]
          · rw [if_neg h3, if_neg h3]
            cases Room.findById db roomId with
            | none => rfl
            | some room =>
              simp only
              by_cases h4 : (memberOrder.filter
                  (fun id => decide (¬ id ∈ memberIds room.members))).length > 0
              · rw [if_pos h4, if_pos h4]
              · rw [if_neg h4, if_neg h4]
                cases Duty.findOne db roomId with
                | some dutyConfig => exact saveIn_response _ _
                | none =>
                  simp only
                  rcases hc : Duty.createIn db
                    ⟨roomId, dutyDocs duties memberOrder, memberOrder, 0, []⟩ with ⟨res, db1⟩
                  cases res with
                  | error e1 =>
                    simp only
                    unfold Duty.createIn at hc
                    cases hs : Duty.save
                        ⟨roomId, dutyDocs duties memberOrder, memberOrder, 0, []⟩ with
                    | error e2 =>
                      rw [hs] at hc
                      rw [(Prod.mk.inj hc).1]
                    | ok stored => rw [hs] at hc; simp at hc
                  | ok dutyConfig =>
                    simp only
                    rw [saveIn_response, save_save (createIn_ok hc), createIn_ok hc]

/-- C22: whenever `addExpense` answers with an error, the store is as it was before the
request, so no expense is created; whenever `createOrUpdateDuties` answers with an
error, the store is as it was, so the room's stored duty configuration (if any) is
unchanged and none is created.  The responses on the store are those of `addExpense`
and `createOrUpdateDuties`. -/
theorem rejection_writes_nothing (db : Database) (requester : String)
    (body : AddExpenseBody) (roomId : String) (config : ConfigureBody) :
    (∀ e, (addExpenseOn db requester body).1 = .error e →
      (addExpenseOn db requester body).2 = db) ∧
    (∀ e, (createOrUpdateDutiesOn db roomId config).1 = .error e →
      (createOrUpdateDutiesOn db roomId config).2 = db) ∧
    (addExpenseOn db requester body).1 =
      addExpense (Room.findById db body.roomId) requester body ∧
    (createOrUpdateDutiesOn db roomId config).1 =
      createOrUpdateDuties (Room.findById db roomId) (Duty.findOne db roomId) roomId config := by
  refine ⟨?_, createOrUpdateDutiesOn_error db roomId config, ?_,
    createOrUpdateDutiesOn_response db roomId config⟩
  · intro e h
    rw [addExpenseOn_eq] at h ⊢
    cases hr : addExpense (Room.findById db body.roomId) requester body with
    | error e1 => rfl
    | ok stored => rw [hr] at h; simp at h
  · rw [addExpenseOn_eq]
    cases addExpense (Room.findById db body.roomId) requester body <;> rfl

theorem addExpenseOn_bodyStranger :
    (addExpenseOn dbAnn "a" bodyStranger).1 =
      .error ⟨400, "User z in splits is not a member of this room."⟩ := by
  simp [addExpenseOn, bodyStranger, dbAnn, Room.findById, admin, memberIds, splitFor]

theorem createOrUpdateDutiesOn_bodyNoDescription :
    (createOrUpdateDutiesOn dbAnn "r" bodyNoDescription).1 =
      .error ⟨500, "Duty validation failed: duties.description"⟩ := rfl

/-- Witness of C22: in the store `dbAnn`, an expense with a split for a stranger and a
duty without a description are rejected, and the store is as it was. -/
theorem rejection_writes_nothing_witness :
    ((addExpenseOn dbAnn "a" bodyStranger).1 =
        .error ⟨400, "User z in splits is not a member of this room."⟩ ∧
      (createOrUpdateDutiesOn dbAnn "r" bodyNoDescription).1 =
        .error ⟨500, "Duty validation failed: duties.description"⟩) ∧
    (addExpenseOn dbAnn "a" bodyStranger).2 = dbAnn ∧
    (createOrUpdateDutiesOn dbAnn "r" bodyNoDescription).2 = dbAnn :=
  ⟨⟨addExpenseOn_bodyStranger, createOrUpdateDutiesOn_bodyNoDescription⟩,
    (rejection_writes_nothing dbAnn "a" bodyStranger "r" bodyNoDescription).1 _
      addExpenseOn_bodyStranger,
    (rejection_writes_nothing dbAnn "a" bodyStranger "r" bodyNoDescription).2.1 _
      createOrUpdateDutiesOn_bodyNoDescription⟩
/-! ## The treasure -/

end SmartSplit
